import Mathlib

/-!
# Connect Four (`connect4.c`)

A shallow embedding of the game engine of `connect4.c` and proofs of the
properties its specification states.

* The global `char grid[P4_COLUMNS][P4_ROWS]` is a value of type `Grid`, passed
  to and returned by the functions that read and write it.
* C `int` values are `Int`; `unsigned` values are `Nat` with every operation
  reduced modulo `2 ^ 32`.  The sums of `int` values in
  `calculate_token_count_from_to` are taken exactly, which is what the machine
  computes wherever they do not overflow, at every position of the grid in
  particular; `calculate_token_count_from_to_int` is the same function with the
  sums reduced to 32 bits, for arguments anywhere in the range of `int`.
* A cell access outside the array is undefined behaviour in C; the embedding
  makes it the fault `Exec.out_of_bounds`.  A loop that is not bounded by its
  own header runs on fuel and yields `Exec.out_of_fuel` when the fuel is spent.
-/

namespace Connect4

/-! ## Constants -/

abbrev P4_COLUMNS : Nat := 7
abbrev P4_ROWS : Nat := 6

abbrev PLAYER1_TOKEN : Char := 'O'
abbrev PLAYER2_TOKEN : Char := 'X'

abbrev STATUS_OK : Int := 0
abbrev STATUS_WIN : Int := 1
abbrev STATUS_DRAW : Int := 2

abbrev EXIT_FAILURE : Int := 1

/-- Modulus of the C type `unsigned`. -/
abbrev UINT_MOD : Nat := 2 ^ 32

/-! ## Data model -/

/-- The C `struct position`. -/
structure position where
  column : Int
  row : Int
deriving DecidableEq, Repr

/-- Result of running a piece of the program: a value, or one of the two ways
the embedding can fail to produce one. -/
inductive Exec (α : Type) where
  | ret (a : α)
  | out_of_bounds
  | out_of_fuel
deriving DecidableEq, Repr

/-- Sequencing: a fault of the first computation is the fault of the whole. -/
def Exec.bind {α β : Type} (x : Exec α) (f : α → Exec β) : Exec β :=
  match x with
  | .ret a => f a
  | .out_of_bounds => .out_of_bounds
  | .out_of_fuel => .out_of_fuel

/-- The contents of `grid[P4_COLUMNS][P4_ROWS]`, indexed column first. -/
abbrev Grid : Type := Fin P4_COLUMNS → Fin P4_ROWS → Char

/-- In-range test of an index pair of `grid`. -/
abbrev in_grid (col row : Int) : Prop :=
  0 ≤ col ∧ col < P4_COLUMNS ∧ 0 ≤ row ∧ row < P4_ROWS

/-- The expression `grid[col][row]` used as a value. -/
def Grid.read (g : Grid) (col row : Int) : Exec Char :=
  if h : in_grid col row then
    .ret (g ⟨col.toNat, by have := h; simp only [in_grid] at this; omega⟩
            ⟨row.toNat, by have := h; simp only [in_grid] at this; omega⟩)
  else .out_of_bounds

/-- The assignment `grid[col][row] = ch`. -/
def Grid.write (g : Grid) (col row : Int) (ch : Char) : Exec Grid :=
  if in_grid col row then
    .ret (fun c r => if (c.val : Int) = col ∧ (r.val : Int) = row then ch else g c r)
  else .out_of_bounds

/-- Contents of `grid` before `initialize_grid` runs: static storage is
zero-initialised. -/
def grid_static : Grid := fun _ _ => Char.ofNat 0

/-! ## Board functions -/

/-- The index pairs `(col, row)` in the order the nested loops
`for (col = 0; col < P4_COLUMNS; col++) for (row = 0; row < P4_ROWS; row++)`
visit them. -/
def grid_indices : List (Nat × Nat) :=
  (List.range P4_COLUMNS).flatMap fun col => (List.range P4_ROWS).map fun row => (col, row)

/-- Loop of `is_grid_full` over the remaining index pairs. -/
def is_grid_full_loop (g : Grid) : List (Nat × Nat) → Exec Int
  | [] => .ret 1
  | (col, row) :: rest =>
    (g.read col row).bind fun ch =>
      if ch = ' ' then .ret 0 else is_grid_full_loop g rest

/-- The function `is_grid_full`. -/
def is_grid_full (g : Grid) : Exec Int :=
  is_grid_full_loop g grid_indices

/-- Loop of `initialize_grid` over the remaining index pairs. -/
def initialize_grid_loop : Grid → List (Nat × Nat) → Exec Grid
  | g, [] => .ret g
  | g, (col, row) :: rest =>
    (g.write col row ' ').bind fun g1 => initialize_grid_loop g1 rest

/-- The function `initialize_grid`, run on the grid contents `g`. -/
def initialize_grid (g : Grid) : Exec Grid :=
  initialize_grid_loop g grid_indices

/-- The function `valid_position`. -/
def valid_position (pos : position) : Int :=
  let result : Int := 1
  let result : Int := if pos.column ≥ P4_COLUMNS ∨ pos.column < 0 then 0 else result
  let result : Int := if pos.row ≥ P4_ROWS ∨ pos.row < 0 then 0 else result
  result

/-! ## Move resolution -/

/-- The body of `valid_move` over an arbitrary reader `rd` of grid cells; the
operator `||` evaluates its right operand only when the left one is false. -/
def valid_move_with (rd : Int → Int → Exec Char) (col : Int) : Exec Int :=
  if col ≤ 0 ∨ col > P4_COLUMNS then .ret 0
  else (rd (col - 1) 0).bind fun ch => if ch ≠ ' ' then .ret 0 else .ret 1

/-- The function `valid_move` on the grid `g`. -/
def valid_move (g : Grid) (col : Int) : Exec Int :=
  valid_move_with g.read col

/-- Loop `for (row = P4_ROWS - 1; row >= 0; --row)` of `calculate_position`;
the natural-number argument is `row + 1`.  The result is the row at which the loop breaks,
or `none` when it runs to its end. -/
def calculate_position_loop (g : Grid) (column : Int) : Nat → Exec (Option Int)
  | 0 => .ret none
  | row + 1 =>
    (g.read column row).bind fun ch =>
      if ch = ' ' then .ret (some (row : Int)) else calculate_position_loop g column row

/-- The function `calculate_position`: `pos` is the structure behind the
pointer on entry, the result is that structure on return. -/
def calculate_position (g : Grid) (move : Int) (pos : position) : Exec position :=
  (calculate_position_loop g move P4_ROWS).bind fun found =>
    match found with
    | some row => .ret { column := move, row := row }
    | none => .ret { column := move, row := pos.row }

/-! ## Win and draw detection -/

/-- The loop `while (valid_position(&tmp))` of `calculate_token_count_from_to`:
one unit of fuel is spent each time the loop condition is evaluated. -/
def calculate_token_count_from_to_loop (g : Grid) (horizontal vertical : Int) (token : Char) :
    Nat → position → Nat → Exec Nat
  | 0, _, _ => .out_of_fuel
  | fuel + 1, tmp, count =>
    if valid_position tmp ≠ 0 then
      (g.read tmp.column tmp.row).bind fun ch =>
        if ch = token then
          calculate_token_count_from_to_loop g horizontal vertical token fuel
            { column := tmp.column + horizontal, row := tmp.row + vertical }
            ((count + 1) % UINT_MOD)
        else .ret count
    else .ret count

/-- Fuel given to the counting loop: a walk along a line with a non-zero
step meets at most `P4_COLUMNS` cells of the grid, so the loop condition is
evaluated at most `P4_COLUMNS + 1` times. -/
abbrev COUNT_FUEL : Nat := P4_COLUMNS + 1

/-- The function `calculate_token_count_from_to`, the sums
`pos->column + horizontal` and `pos->row + vertical` taken exactly.  This is
what the machine computes wherever the sums do not overflow, and what it counts
at every valid position (`calculate_token_count_from_to_int_count`); for the
other arguments see `calculate_token_count_from_to_int`. -/
def calculate_token_count_from_to (g : Grid) (pos : position) (horizontal vertical : Int)
    (token : Char) : Exec Nat :=
  calculate_token_count_from_to_loop g horizontal vertical token COUNT_FUEL
    { column := pos.column + horizontal, row := pos.row + vertical } 1

/-- The function `max` on `unsigned` values. -/
def max (a b : Nat) : Nat := if a > b then a else b

/-- The `unsigned` expression `a + b - 1`. -/
def add_sub_one (a b : Nat) : Nat := ((a + b) % UINT_MOD + (UINT_MOD - 1)) % UINT_MOD

/-- The function `calculate_token_count`. -/
def calculate_token_count (g : Grid) (pos : position) (token : Char) : Exec Nat :=
  (calculate_token_count_from_to g pos 0 1 token).bind fun down =>
  (calculate_token_count_from_to g pos 1 0 token).bind fun east =>
  (calculate_token_count_from_to g pos (-1) 0 token).bind fun west =>
  (calculate_token_count_from_to g pos 1 1 token).bind fun south_east =>
  (calculate_token_count_from_to g pos (-1) (-1) token).bind fun north_west =>
  (calculate_token_count_from_to g pos 1 (-1) token).bind fun north_east =>
  (calculate_token_count_from_to g pos (-1) 1 token).bind fun south_west =>
    let max_count := down
    let max_count := Connect4.max max_count (add_sub_one east west)
    let max_count := Connect4.max max_count (add_sub_one south_east north_west)
    let max_count := Connect4.max max_count (add_sub_one north_east south_west)
    .ret max_count

/-- The function `game_status`. -/
def game_status (g : Grid) (pos : position) (token : Char) : Exec Int :=
  (is_grid_full g).bind fun full =>
    if full ≠ 0 then .ret STATUS_DRAW
    else (calculate_token_count g pos token).bind fun count =>
      if count ≥ 4 then .ret STATUS_WIN else .ret STATUS_OK

/-! ## The turn loop of `main` -/

/-- What `request_action` hands to `main`: the action code, and for
`ACTION_PLAY` the integer stored through its argument. -/
inductive Input where
  | error
  | play (move : Int)
  | new_input
  | quit
deriving DecidableEq, Repr

/-- Where `main` stands. -/
inductive Phase where
  | playing
  | ended (status : Int)
  | exited (code : Int)
deriving DecidableEq, Repr

/-- The state of `main`: the grid, the variable `token`, and the phase. -/
structure Game where
  grid : Grid
  token : Char
  phase : Phase

/-- The state on entry to `while (1)`: `initialize_grid` has run and `token`
is `PLAYER1_TOKEN`. -/
def main_start : Exec Game :=
  (initialize_grid grid_static).bind fun g =>
    .ret { grid := g, token := PLAYER1_TOKEN, phase := .playing }

/-- One iteration of the loop `while (1)` of `main`, on the input `inp`;
`pos0` is the content of the uninitialised local `pos`. -/
def main_turn (pos0 : position) (s : Game) (inp : Input) : Exec Game :=
  match inp with
  | .error => .ret { s with phase := .exited EXIT_FAILURE }
  | .quit => .ret { s with phase := .exited 0 }
  | .new_input => .ret s
  | .play move =>
    (valid_move s.grid move).bind fun valid =>
      if valid = 0 then .ret s
      else
        (calculate_position s.grid (move - 1) pos0).bind fun pos =>
        (s.grid.write pos.column pos.row s.token).bind fun g1 =>
        (game_status g1 pos s.token).bind fun status =>
          if status ≠ STATUS_OK then
            .ret { grid := g1, token := s.token, phase := .ended status }
          else
            .ret { grid := g1,
                   token := if s.token = PLAYER1_TOKEN then PLAYER2_TOKEN else PLAYER1_TOKEN,
                   phase := .playing }

/-- The loop of `main` on a list of inputs: it stops at the first `break` or
`return`. -/
def main_loop (pos0 : position) : Game → List Input → Exec Game
  | s, [] => .ret s
  | s, inp :: rest =>
    match s.phase with
    | .playing => (main_turn pos0 s inp).bind fun s1 => main_loop pos0 s1 rest
    | _ => .ret s

/-- What `main` prints after the loop. -/
inductive Announcement where
  | wins (player : Int)
  | draw
  | nothing
deriving DecidableEq, Repr

/-- The statements of `main` after the loop, for a game that left it by
`break`. -/
def main_result (s : Game) : Announcement :=
  match s.phase with
  | .ended status =>
    if status = STATUS_WIN then .wins (if s.token = PLAYER1_TOKEN then 1 else 2)
    else if status = STATUS_DRAW then .draw
    else .nothing
  | _ => .nothing

/-! ## Notions the properties are stated with -/

/-- A cell is occupied when it does not hold the blank. -/
abbrev occupied (g : Grid) (c : Fin P4_COLUMNS) (r : Fin P4_ROWS) : Prop := g c r ≠ ' '

/-- Gravity: no column has an empty cell below an occupied one (row 0 is the
top row, row 5 the bottom row). -/
def gravity (g : Grid) : Prop :=
  ∀ (c : Fin P4_COLUMNS) (r r1 : Fin P4_ROWS), r < r1 → occupied g c r → occupied g c r1

/-- The states `main` can be in: the state on entry to the loop, and every
state one more iteration leads to from a state in which the loop is running. -/
inductive Reachable : Game → Prop where
  | start (s : Game) : main_start = .ret s → Reachable s
  | turn (s s1 : Game) (pos0 : position) (inp : Input) :
      Reachable s → s.phase = .playing → main_turn pos0 s inp = .ret s1 → Reachable s1

/-- The grid `g` with the cell `(c, r)` holding `ch`. -/
def Grid.set (g : Grid) (c : Fin P4_COLUMNS) (r : Fin P4_ROWS) (ch : Char) : Grid :=
  fun c1 r1 => if c1 = c ∧ r1 = r then ch else g c1 r1

/-- Number of cells of the grid from `tmp` on, walking with a step whose
sign pattern is that of `(h, v)`; 0 outside the grid. -/
def cells_ahead (h v : Int) (tmp : position) : Nat :=
  if in_grid tmp.column tmp.row then
    if 0 < h then (7 - tmp.column).toNat
    else if h < 0 then (tmp.column + 1).toNat
    else if 0 < v then (6 - tmp.row).toNat
    else (tmp.row + 1).toNat
  else 0

/-- The state in which `main` leaves a turn that wrote the grid `g1` and got
`status` from `game_status`. -/
def next_game (s : Game) (g1 : Grid) (status : Int) : Game :=
  if status ≠ STATUS_OK then { grid := g1, token := s.token, phase := .ended status }
  else { grid := g1,
         token := if s.token = PLAYER1_TOKEN then PLAYER2_TOKEN else PLAYER1_TOKEN,
         phase := .playing }

/-- The grid whose row `r`, read from column 0 to column 6, is the `r`-th
string of `rows`. -/
def grid_of_rows (rows : List String) : Grid :=
  fun c r => ((rows.getD r.val "").toList).getD c.val ' '

/-- A game of 41 moves, 'O' and 'X' in turn, after which `game_status` has
returned `STATUS_OK` each time and one cell is left empty. -/
def last_cell_moves : List Int :=
  [5, 7, 1, 3, 7, 6, 2, 3, 6, 3, 4, 5, 2, 2, 5, 1, 4, 6, 6, 7, 3,
   5, 4, 1, 2, 4, 2, 6, 1, 2, 4, 1, 3, 7, 3, 5, 4, 1, 5, 7, 7]

/-- The grid the moves `last_cell_moves` lead to: only the top cell of
column index 5 is empty, and 'X' is to play. -/
def last_cell_board : Grid :=
  grid_of_rows
    ["XXOOO O",
     "XOOOXXX",
     "OOOXXOX",
     "XXXOOXX",
     "XOXOXOO",
     "OOXOOXX"]

/-- Whether a computation produced a value. -/
def Exec.is_ret {α : Type} : Exec α → Bool
  | .ret _ => true
  | _ => false

/-- The value of a computation, `d` for a fault. -/
def Exec.value {α : Type} (d : α) : Exec α → α
  | .ret a => a
  | _ => d

/-- The grid with every cell blank. -/
def empty_grid : Grid := fun _ _ => ' '

/-- The game on entry to the loop of `main`. -/
def start_game : Game := { grid := empty_grid, token := PLAYER1_TOKEN, phase := .playing }

/-- The game after `main` has consumed the column numbers `moves`. -/
def game_after (moves : List Int) : Game :=
  (main_loop ⟨0, 0⟩ start_game (moves.map Input.play)).value start_game

/-- The index pair `(col, row)` is inside the grid and the cell holds `token`. -/
abbrev holds (g : Grid) (token : Char) (col row : Int) : Prop :=
  g.read col row = .ret token

/-- Exactly `k` consecutive cells after `pos` in the direction `(h, v)` are
in the grid and hold `token`: the cells `pos + i * (h, v)` for `i` in `1..k` do,
and the cell `pos + (k + 1) * (h, v)` does not. -/
def ray (g : Grid) (token : Char) (pos : position) (h v : Int) (k : Nat) : Prop :=
  (∀ i : Nat, 1 ≤ i → i ≤ k → holds g token (pos.column + i * h) (pos.row + i * v)) ∧
  ¬ holds g token (pos.column + ((k + 1 : Nat) : Int) * h) (pos.row + ((k + 1 : Nat) : Int) * v)

/-- Offsets, from a cell of the grid, of the cells of the grid on a line
through it: a line has at most 7 cells in the grid. -/
def line_offsets : List Int := [-6, -5, -4, -3, -2, -1, 0, 1, 2, 3, 4, 5, 6]

/-- The cell `pos + k * (h, v)` is joined to `pos` by cells holding `token`:
every cell of the line from `pos` to it, both included, is in the grid and holds
`token`. -/
abbrev joined (g : Grid) (token : Char) (pos : position) (h v : Int) (k : Int) : Prop :=
  ∀ i ∈ line_offsets, (0 ≤ i ∧ i ≤ k) ∨ (k ≤ i ∧ i ≤ 0) →
    holds g token (pos.column + i * h) (pos.row + i * v)

/-- Run length through `pos` on the axis of direction `(h, v)`, as the
specification words it: the number of cells in the maximal contiguous in-grid
segment of `token` cells on that line that contains `pos`. -/
def spec_run_length (g : Grid) (token : Char) (pos : position) (h v : Int) : Nat :=
  (line_offsets.filter fun k => decide (joined g token pos h v k)).length

/-- The maximum over the four axes (vertical, horizontal, diagonal,
anti-diagonal) of the run length through `pos`. -/
def spec_max_run (g : Grid) (token : Char) (pos : position) : Nat :=
  Nat.max (Nat.max (Nat.max (spec_run_length g token pos 0 1) (spec_run_length g token pos 1 0))
    (spec_run_length g token pos 1 1)) (spec_run_length g token pos 1 (-1))

/-- The function `calculate_token_count` with the vertical term formed like
the other three, from the downward and the upward count:
`count(0, 1) + count(0, -1) - 1`. -/
def calculate_token_count_two_sided (g : Grid) (pos : position) (token : Char) : Exec Nat :=
  (calculate_token_count_from_to g pos 0 1 token).bind fun down =>
  (calculate_token_count_from_to g pos 0 (-1) token).bind fun up =>
  (calculate_token_count_from_to g pos 1 0 token).bind fun east =>
  (calculate_token_count_from_to g pos (-1) 0 token).bind fun west =>
  (calculate_token_count_from_to g pos 1 1 token).bind fun south_east =>
  (calculate_token_count_from_to g pos (-1) (-1) token).bind fun north_west =>
  (calculate_token_count_from_to g pos 1 (-1) token).bind fun north_east =>
  (calculate_token_count_from_to g pos (-1) 1 token).bind fun south_west =>
    let max_count := add_sub_one down up
    let max_count := Connect4.max max_count (add_sub_one east west)
    let max_count := Connect4.max max_count (add_sub_one south_east north_west)
    let max_count := Connect4.max max_count (add_sub_one north_east south_west)
    .ret max_count

/-- Directions of the four axes: vertical, horizontal, diagonal and
anti-diagonal. -/
def axes : List (Int × Int) := [(0, 1), (1, 0), (1, 1), (1, -1)]

/-- The four cells `(col, row) + i * (h, v)`, `i` in `0..3`, are in the grid
and hold `token`. -/
abbrev four_from (g : Grid) (token : Char) (col row h v : Int) : Prop :=
  ∀ i : Nat, i < 4 → holds g token (col + i * h) (row + i * v)

/-- Four consecutive cells in a line, horizontal, vertical, diagonal or
anti-diagonal, hold `token` somewhere on the grid. -/
abbrev has_four (g : Grid) (token : Char) : Prop :=
  ∃ p ∈ grid_indices, ∃ d ∈ axes, four_from g token (p.1 : Int) (p.2 : Int) d.1 d.2

/-- Number of cells of the grid that hold `ch`. -/
def count_cells (g : Grid) (ch : Char) : Nat :=
  (Finset.univ.filter fun p : Fin P4_COLUMNS × Fin P4_ROWS => g p.1 p.2 = ch).card

/-- The input makes `main` place a token: it is a column that `valid_move`
accepts. -/
def accepted (s : Game) (inp : Input) : Prop :=
  ∃ move : Int, inp = .play move ∧ valid_move s.grid move = .ret 1

/-- The states `main` can be in after `n` successful moves: as `Reachable`,
with the number of turns that placed a token. -/
inductive ReachableAfter : Nat → Game → Prop where
  | start (s : Game) : main_start = .ret s → ReachableAfter 0 s
  | idle (n : Nat) (s s1 : Game) (pos0 : position) (inp : Input) :
      ReachableAfter n s → s.phase = .playing → ¬ accepted s inp →
      main_turn pos0 s inp = .ret s1 → ReachableAfter n s1
  | played (n : Nat) (s s1 : Game) (pos0 : position) (inp : Input) :
      ReachableAfter n s → s.phase = .playing → accepted s inp →
      main_turn pos0 s inp = .ret s1 → ReachableAfter (n + 1) s1

/-- The statements of `main` that play a column, from the call of
`valid_move` to the call of `game_status`, run on the grid `g` for the token
`token`: `none` when `valid_move` rejects the column, otherwise the grid
written, the position and the status. -/
def drop (pos0 : position) (g : Grid) (move : Int) (token : Char) :
    Exec (Option (Grid × position × Int)) :=
  (valid_move g move).bind fun valid =>
    if valid = 0 then .ret none
    else
      (calculate_position g (move - 1) pos0).bind fun pos =>
      (g.write pos.column pos.row token).bind fun g1 =>
      (game_status g1 pos token).bind fun status => .ret (some (g1, pos, status))

/-- A sequence of drops, each with its own token, carried on whatever the
statuses are: the final grid, and for each drop `none` when it was rejected,
otherwise the position written and the status returned. -/
def drops (pos0 : position) :
    Grid → List (Int × Char) → Exec (Grid × List (Option (position × Int)))
  | g, [] => .ret (g, [])
  | g, (move, token) :: rest =>
    (drop pos0 g move token).bind fun res =>
      match res with
      | none => (drops pos0 g rest).bind fun out => .ret (out.1, none :: out.2)
      | some (g1, pos, status) =>
        (drops pos0 g1 rest).bind fun out => .ret (out.1, some (pos, status) :: out.2)

/-- The positions and statuses of a sequence of drops that starts on the
grid `initialize_grid` produces. -/
def drop_log (moves : List (Int × Char)) : Exec (List (Option (position × Int))) :=
  (initialize_grid grid_static).bind fun g =>
    (drops ⟨0, 0⟩ g moves).bind fun out => .ret out.2

/-- The columns `cols` with the tokens 'O' and 'X' in turn, `token` first. -/
def alternating : Char → List Int → List (Int × Char)
  | _, [] => []
  | token, move :: rest =>
    (move, token) ::
      alternating (if token = PLAYER1_TOKEN then PLAYER2_TOKEN else PLAYER1_TOKEN) rest

/-- A game of 42 moves that fills the grid without four in a line. -/
def draw_columns : List Int :=
  [6, 5, 6, 1, 7, 3, 5, 6, 6, 1, 5, 2, 2, 1, 5, 6, 7, 6, 4, 2, 2,
   3, 3, 7, 3, 7, 7, 4, 7, 3, 1, 4, 1, 4, 4, 5, 4, 2, 5, 3, 2, 1]

/-- The log of four drops into the columns `order` that all land in row 5,
the first three with `STATUS_OK` and the last with `STATUS_WIN`. -/
def bottom_row_log (order : List Int) : List (Option (position × Int)) :=
  (order.zip [STATUS_OK, STATUS_OK, STATUS_OK, STATUS_WIN]).map fun x =>
    some ({ column := x.1 - 1, row := 5 }, x.2)

/-- Smallest and largest value of the C type `int` (32 bits, two's
complement). -/
abbrev INT_MIN : Int := -2147483648
abbrev INT_MAX : Int := 2147483647

/-- The value is one a C `int` holds. -/
abbrev is_int (x : Int) : Prop := INT_MIN ≤ x ∧ x ≤ INT_MAX

/-- The sum of two `int` values as the machine forms it: reduced to 32 bits,
two's complement. -/
def add_int (a b : Int) : Int := (a + b + 2147483648) % 4294967296 - 2147483648

/-- The loop `while (valid_position(&tmp))` of `calculate_token_count_from_to`
with the sums `tmp.column += horizontal` and `tmp.row += vertical` formed by
`add_int`; besides the count it returns the positions at which
`grid[tmp.column][tmp.row]` was evaluated, in order. -/
def calculate_token_count_from_to_int_loop (g : Grid) (horizontal vertical : Int)
    (token : Char) : Nat → position → Nat → List position → Exec (Nat × List position)
  | 0, _, _, _ => .out_of_fuel
  | fuel + 1, tmp, count, reads =>
    if valid_position tmp ≠ 0 then
      (g.read tmp.column tmp.row).bind fun ch =>
        if ch = token then
          calculate_token_count_from_to_int_loop g horizontal vertical token fuel
            { column := add_int tmp.column horizontal, row := add_int tmp.row vertical }
            ((count + 1) % UINT_MOD) (reads ++ [tmp])
        else .ret (count, reads ++ [tmp])
    else .ret (count, reads)

/-- The function `calculate_token_count_from_to` with every sum of `int`
values formed by `add_int`: the count, and the positions at which the grid was
read. -/
def calculate_token_count_from_to_int (g : Grid) (pos : position) (horizontal vertical : Int)
    (token : Char) : Exec (Nat × List position) :=
  calculate_token_count_from_to_int_loop g horizontal vertical token COUNT_FUEL
    { column := add_int pos.column horizontal, row := add_int pos.row vertical } 1 []

end Connect4

namespace Connect4

/-! ## Basic facts -/

@[simp] theorem Exec.bind_ret {α β : Type} (a : α) (f : α → Exec β) :
    (Exec.ret a).bind f = f a := rfl

@[simp] theorem Exec.bind_out_of_bounds {α β : Type} (f : α → Exec β) :
    (Exec.out_of_bounds : Exec α).bind f = .out_of_bounds := rfl

@[simp] theorem Exec.bind_out_of_fuel {α β : Type} (f : α → Exec β) :
    (Exec.out_of_fuel : Exec α).bind f = .out_of_fuel := rfl

theorem Exec.bind_eq_ret {α β : Type} {x : Exec α} {f : α → Exec β} {b : β}
    (h : x.bind f = .ret b) : ∃ a, x = .ret a ∧ f a = .ret b := by
  cases x with
  | ret a => exact ⟨a, rfl, h⟩
  | out_of_bounds => simp at h
  | out_of_fuel => simp at h

theorem Grid.read_fin (g : Grid) (c : Fin P4_COLUMNS) (r : Fin P4_ROWS) :
    g.read (c.val : Int) (r.val : Int) = .ret (g c r) := by
  have h : in_grid (c.val : Int) (r.val : Int) := by
    have := c.isLt; have := r.isLt
    refine ⟨by omega, by omega, by omega, by omega⟩
  unfold Grid.read
  rw [dif_pos h]
  congr

theorem Grid.read_nat (g : Grid) (c r : Nat) (hc : c < P4_COLUMNS) (hr : r < P4_ROWS) :
    g.read (c : Int) (r : Int) = .ret (g ⟨c, hc⟩ ⟨r, hr⟩) :=
  Grid.read_fin g ⟨c, hc⟩ ⟨r, hr⟩

theorem Grid.read_in_grid (g : Grid) (col row : Int) (h : in_grid col row) :
    ∃ (c : Fin P4_COLUMNS) (r : Fin P4_ROWS),
      (c.val : Int) = col ∧ (r.val : Int) = row ∧ g.read col row = .ret (g c r) := by
  obtain ⟨h1, h2, h3, h4⟩ := h
  refine ⟨⟨col.toNat, by omega⟩, ⟨row.toNat, by omega⟩, ?_, ?_, ?_⟩
  · simp only; omega
  · simp only; omega
  · unfold Grid.read
    rw [dif_pos ⟨h1, h2, h3, h4⟩]

theorem Grid.read_outside (g : Grid) (col row : Int) (h : ¬ in_grid col row) :
    g.read col row = .out_of_bounds := by
  unfold Grid.read
  rw [dif_neg h]

theorem Grid.write_fin (g : Grid) (c : Fin P4_COLUMNS) (r : Fin P4_ROWS) (ch : Char) :
    g.write (c.val : Int) (r.val : Int) ch = .ret (g.set c r ch) := by
  have h : in_grid (c.val : Int) (r.val : Int) := by
    have := c.isLt; have := r.isLt
    refine ⟨by omega, by omega, by omega, by omega⟩
  unfold Grid.write Grid.set
  rw [if_pos h]
  congr
  funext c1 r1
  have e : ((c1.val : Int) = (c.val : Int) ∧ (r1.val : Int) = (r.val : Int)) ↔ (c1 = c ∧ r1 = r) := by
    constructor
    · rintro ⟨a, b⟩
      exact ⟨Fin.ext (by omega), Fin.ext (by omega)⟩
    · rintro ⟨a, b⟩
      subst a; subst b
      exact ⟨rfl, rfl⟩
  simp only [e]

theorem Grid.set_same (g : Grid) (c : Fin P4_COLUMNS) (r : Fin P4_ROWS) (ch : Char) :
    g.set c r ch c r = ch := by
  unfold Grid.set
  rw [if_pos ⟨rfl, rfl⟩]

theorem Grid.set_other (g : Grid) (c c1 : Fin P4_COLUMNS) (r r1 : Fin P4_ROWS) (ch : Char)
    (h : ¬ (c1 = c ∧ r1 = r)) : g.set c r ch c1 r1 = g c1 r1 := by
  unfold Grid.set
  rw [if_neg h]

theorem mem_grid_indices (p : Nat × Nat) :
    p ∈ grid_indices ↔ p.1 < P4_COLUMNS ∧ p.2 < P4_ROWS := by
  obtain ⟨a, b⟩ := p
  simp only [grid_indices, List.mem_flatMap, List.mem_range, List.mem_map, Prod.mk.injEq]
  constructor
  · rintro ⟨c, hc, r, hr, rfl, rfl⟩
    exact ⟨hc, hr⟩
  · rintro ⟨hc, hr⟩
    exact ⟨a, hc, b, hr, rfl, rfl⟩

/-! ## `is_grid_full` and `initialize_grid` -/

theorem is_grid_full_loop_spec (g : Grid) :
    ∀ l : List (Nat × Nat), (∀ p ∈ l, p.1 < P4_COLUMNS ∧ p.2 < P4_ROWS) →
      (is_grid_full_loop g l = .ret 1 ∧ ∀ p ∈ l, g.read p.1 p.2 ≠ .ret ' ') ∨
      (is_grid_full_loop g l = .ret 0 ∧ ∃ p ∈ l, g.read p.1 p.2 = .ret ' ') := by
  intro l
  induction l with
  | nil => intro _; left; exact ⟨rfl, by simp⟩
  | cons p rest ih =>
    intro hl
    obtain ⟨col, row⟩ := p
    have hp := hl (col, row) (List.mem_cons_self _ _)
    have hrest : ∀ q ∈ rest, q.1 < P4_COLUMNS ∧ q.2 < P4_ROWS :=
      fun q hq => hl q (List.mem_cons_of_mem _ hq)
    have hread := Grid.read_nat g col row hp.1 hp.2
    simp only [is_grid_full_loop, hread, Exec.bind_ret]
    by_cases hc : g ⟨col, hp.1⟩ ⟨row, hp.2⟩ = ' '
    · right
      rw [if_pos hc]
      exact ⟨rfl, (col, row), List.mem_cons_self _ _, by rw [hread, hc]⟩
    · rw [if_neg hc]
      rcases ih hrest with ⟨h1, h2⟩ | ⟨h1, q, hq, h2⟩
      · left
        refine ⟨h1, ?_⟩
        intro q hq
        rcases List.mem_cons.mp hq with rfl | hq
        · rw [hread]; intro hh; exact hc (Exec.ret.inj hh)
        · exact h2 q hq
      · right
        exact ⟨h1, q, List.mem_cons_of_mem _ hq, h2⟩

theorem is_grid_full_cases (g : Grid) :
    (is_grid_full g = .ret 1 ∧ ∀ c r, g c r ≠ ' ') ∨
    (is_grid_full g = .ret 0 ∧ ∃ c r, g c r = ' ') := by
  rcases is_grid_full_loop_spec g grid_indices (fun p hp => (mem_grid_indices p).mp hp) with
    ⟨h1, h2⟩ | ⟨h1, p, hp, h2⟩
  · left
    refine ⟨h1, ?_⟩
    intro c r hcr
    have := h2 (c.val, r.val) ((mem_grid_indices _).mpr ⟨c.isLt, r.isLt⟩)
    apply this
    simp only
    rw [Grid.read_fin, hcr]
  · right
    refine ⟨h1, ?_⟩
    have hp1 := (mem_grid_indices p).mp hp
    rw [Grid.read_nat g p.1 p.2 hp1.1 hp1.2] at h2
    exact ⟨_, _, Exec.ret.inj h2⟩

theorem initialize_grid_loop_spec :
    ∀ (l : List (Nat × Nat)) (g : Grid), (∀ p ∈ l, p.1 < P4_COLUMNS ∧ p.2 < P4_ROWS) →
      ∃ g1, initialize_grid_loop g l = .ret g1 ∧
        ∀ c r, g1 c r = if (c.val, r.val) ∈ l then ' ' else g c r := by
  intro l
  induction l with
  | nil => intro g _; exact ⟨g, rfl, by simp⟩
  | cons p rest ih =>
    intro g hl
    obtain ⟨col, row⟩ := p
    have hp := hl (col, row) (List.mem_cons_self _ _)
    have hrest : ∀ q ∈ rest, q.1 < P4_COLUMNS ∧ q.2 < P4_ROWS :=
      fun q hq => hl q (List.mem_cons_of_mem _ hq)
    have hw := Grid.write_fin g ⟨col, hp.1⟩ ⟨row, hp.2⟩ ' '
    simp only at hw
    simp only [initialize_grid_loop, hw, Exec.bind_ret]
    obtain ⟨g1, h1, h2⟩ := ih (g.set ⟨col, hp.1⟩ ⟨row, hp.2⟩ ' ') hrest
    refine ⟨g1, h1, ?_⟩
    intro c r
    rw [h2 c r]
    unfold Grid.set
    by_cases hm : (c.val, r.val) ∈ rest
    · simp [hm]
    · simp only [hm, if_false, List.mem_cons, Prod.mk.injEq, or_false]
      by_cases he : c = ⟨col, hp.1⟩ ∧ r = ⟨row, hp.2⟩
      · obtain ⟨rfl, rfl⟩ := he
        simp
      · rw [if_neg he, if_neg]
        rintro ⟨a, b⟩
        exact he ⟨Fin.ext a, Fin.ext b⟩

theorem initialize_grid_eq (g : Grid) : initialize_grid g = .ret empty_grid := by
  obtain ⟨g1, h1, h2⟩ :=
    initialize_grid_loop_spec grid_indices g (fun p hp => (mem_grid_indices p).mp hp)
  unfold initialize_grid
  rw [h1]
  congr
  funext c r
  rw [h2 c r, if_pos ((mem_grid_indices _).mpr ⟨c.isLt, r.isLt⟩)]
  rfl

theorem main_start_eq : main_start = .ret start_game := by
  unfold main_start
  rw [initialize_grid_eq]
  rfl

/-! ## `valid_move` and `calculate_position` -/

theorem valid_move_with_outside (rd : Int → Int → Exec Char) (col : Int)
    (h : ¬ (1 ≤ col ∧ col ≤ 7)) : valid_move_with rd col = .ret 0 := by
  have h7 : P4_COLUMNS = 7 := rfl
  unfold valid_move_with
  rw [if_pos]
  omega

theorem valid_move_fin (g : Grid) (c : Fin P4_COLUMNS) :
    valid_move g ((c.val : Int) + 1) = if g c 0 = ' ' then .ret 1 else .ret 0 := by
  have hc := c.isLt
  have h7 : P4_COLUMNS = 7 := rfl
  unfold valid_move valid_move_with
  rw [if_neg (by omega)]
  have e : (c.val : Int) + 1 - 1 = (c.val : Int) := by omega
  have hr := Grid.read_fin g c 0
  simp only [Fin.val_zero, Nat.cast_zero] at hr
  rw [e, hr, Exec.bind_ret]
  by_cases h : g c 0 = ' '
  · simp [h]
  · simp [h]

theorem valid_move_eq_one (g : Grid) (col : Int) (h : valid_move g col = .ret 1) :
    ∃ c : Fin P4_COLUMNS, (c.val : Int) + 1 = col ∧ g c 0 = ' ' := by
  have h7 : P4_COLUMNS = 7 := rfl
  by_cases hcol : 1 ≤ col ∧ col ≤ 7
  · refine ⟨⟨(col - 1).toNat, by omega⟩, by simp only; omega, ?_⟩
    have hv := valid_move_fin g ⟨(col - 1).toNat, by omega⟩
    have e : (((col - 1).toNat : Nat) : Int) + 1 = col := by omega
    simp only [e] at hv
    rw [hv] at h
    by_contra hne
    rw [if_neg hne] at h
    cases h
  · have := valid_move_with_outside g.read col hcol
    unfold valid_move at h
    rw [this] at h
    cases h

theorem calculate_position_loop_spec (g : Grid) (c : Fin P4_COLUMNS) :
    ∀ n : Nat, n ≤ P4_ROWS →
      (∃ r : Fin P4_ROWS, r.val < n ∧
          calculate_position_loop g (c.val : Int) n = .ret (some (r.val : Int)) ∧
          g c r = ' ' ∧ ∀ r1 : Fin P4_ROWS, r < r1 → r1.val < n → g c r1 ≠ ' ') ∨
      (calculate_position_loop g (c.val : Int) n = .ret none ∧
          ∀ r1 : Fin P4_ROWS, r1.val < n → g c r1 ≠ ' ') := by
  intro n
  induction n with
  | zero =>
    intro _
    right
    exact ⟨rfl, fun r1 h => absurd h (Nat.not_lt_zero _)⟩
  | succ k ih =>
    intro hk
    have hread := Grid.read_fin g c ⟨k, by omega⟩
    simp only at hread
    simp only [calculate_position_loop, hread, Exec.bind_ret]
    by_cases hc : g c ⟨k, by omega⟩ = ' '
    · left
      rw [if_pos hc]
      refine ⟨⟨k, by omega⟩, Nat.lt_succ_self k, rfl, hc, ?_⟩
      intro r1 h1 h2
      exact absurd (Fin.lt_def.mp h1) (by simp only; omega)
    · rw [if_neg hc]
      rcases ih (by omega) with ⟨r, h1, h2, h3, h4⟩ | ⟨h1, h2⟩
      · left
        refine ⟨r, by omega, h2, h3, ?_⟩
        intro r1 hr1 hlt
        by_cases hk1 : r1.val < k
        · exact h4 r1 hr1 hk1
        · have : r1 = ⟨k, by omega⟩ := Fin.ext (by simp only; omega)
          rw [this]; exact hc
      · right
        refine ⟨h1, ?_⟩
        intro r1 hlt
        by_cases hk1 : r1.val < k
        · exact h2 r1 hk1
        · have : r1 = ⟨k, by omega⟩ := Fin.ext (by simp only; omega)
          rw [this]; exact hc

theorem calculate_position_fin (g : Grid) (c : Fin P4_COLUMNS) (pos : position)
    (h : ∃ r, g c r = ' ') :
    ∃ r : Fin P4_ROWS,
      calculate_position g (c.val : Int) pos = .ret { column := c.val, row := r.val } ∧
      g c r = ' ' ∧ ∀ r1 : Fin P4_ROWS, r < r1 → g c r1 ≠ ' ' := by
  rcases calculate_position_loop_spec g c P4_ROWS (le_refl _) with ⟨r, _, h2, h3, h4⟩ | ⟨_, h2⟩
  · refine ⟨r, ?_, h3, fun r1 hr1 => h4 r1 hr1 r1.isLt⟩
    unfold calculate_position
    rw [h2]
    rfl
  · obtain ⟨r, hr⟩ := h
    exact absurd hr (h2 r r.isLt)

/-! ## Claims on the board functions and on move resolution -/

/-- C1: `valid_move(col)` returns 1 exactly when `1 <= col <= 7` and
`grid[col-1][0]` holds the blank, it returns 0 in every other case, and for
`col` outside `[1,7]` it returns 0 whatever reading a cell would do, even if
every read were a fault: no cell is read. -/
theorem valid_move_iff (g : Grid) (col : Int) :
    (valid_move g col = .ret 1 ↔ (1 ≤ col ∧ col ≤ 7 ∧ g.read (col - 1) 0 = .ret ' ')) ∧
    (valid_move g col = .ret 1 ∨ valid_move g col = .ret 0) ∧
    (¬ (1 ≤ col ∧ col ≤ 7) →
      (∀ rd : Int → Int → Exec Char, valid_move_with rd col = .ret 0) ∧
      valid_move_with (fun _ _ => .out_of_bounds) col = .ret 0) := by
  have h7 : P4_COLUMNS = 7 := rfl
  refine ⟨?_, ?_, fun h => ⟨fun rd => valid_move_with_outside rd col h,
    valid_move_with_outside _ col h⟩⟩
  · constructor
    · intro h
      obtain ⟨c, hc, he⟩ := valid_move_eq_one g col h
      have := c.isLt
      refine ⟨by omega, by omega, ?_⟩
      have e : col - 1 = (c.val : Int) := by omega
      have hr := Grid.read_fin g c 0
      simp only [Fin.val_zero, Nat.cast_zero] at hr
      rw [e, hr, he]
    · rintro ⟨h1, h7, hr⟩
      have hv := valid_move_fin g ⟨(col - 1).toNat, by omega⟩
      have e : (((col - 1).toNat : Nat) : Int) + 1 = col := by omega
      have e1 : (((col - 1).toNat : Nat) : Int) = col - 1 := by omega
      have hr1 := Grid.read_fin g ⟨(col - 1).toNat, by omega⟩ 0
      simp only [Fin.val_zero, Nat.cast_zero, e1] at hr1
      simp only [e] at hv
      rw [hr1] at hr
      rw [hv, if_pos (Exec.ret.inj hr)]
  · by_cases hcol : 1 ≤ col ∧ col ≤ 7
    · have hv := valid_move_fin g ⟨(col - 1).toNat, by omega⟩
      have e : (((col - 1).toNat : Nat) : Int) + 1 = col := by omega
      simp only [e] at hv
      rw [hv]
      by_cases hb : g ⟨(col - 1).toNat, by omega⟩ 0 = ' '
      · left; rw [if_pos hb]
      · right; rw [if_neg hb]
    · right
      exact valid_move_with_outside g.read col hcol

/-- C2: in a column `c` of 0..6 whose top cell is empty (so that
`valid_move(c+1)` accepts it), `calculate_position(c, pos)` sets `pos` to
`(c, r)` with `r` the largest row index whose cell is empty: that cell is empty,
every cell below it in the column is occupied, and writing a token there leaves
every occupied cell as it was. -/
theorem calculate_position_lowest_empty (g : Grid) (c : Fin P4_COLUMNS) (pos : position)
    (h : g c 0 = ' ') :
    valid_move g ((c.val : Int) + 1) = .ret 1 ∧
    ∃ r : Fin P4_ROWS,
      calculate_position g (c.val : Int) pos = .ret { column := c.val, row := r.val } ∧
      g c r = ' ' ∧
      (∀ r1 : Fin P4_ROWS, g c r1 = ' ' → r1 ≤ r) ∧
      (∀ r1 : Fin P4_ROWS, r < r1 → occupied g c r1) ∧
      ∀ token : Char, ∃ g1 : Grid,
        g.write (c.val : Int) (r.val : Int) token = .ret g1 ∧ g1 c r = token ∧
        ∀ c1 r1, occupied g c1 r1 → g1 c1 r1 = g c1 r1 := by
  refine ⟨by rw [valid_move_fin, if_pos h], ?_⟩
  obtain ⟨r, h1, h2, h3⟩ := calculate_position_fin g c pos ⟨0, h⟩
  refine ⟨r, h1, h2, ?_, h3, ?_⟩
  · intro r1 hr1
    by_contra hlt
    exact h3 r1 (not_le.mp hlt) hr1
  · intro token
    refine ⟨_, Grid.write_fin g c r token, Grid.set_same g c r token, ?_⟩
    intro c1 r1 hocc
    apply Grid.set_other
    rintro ⟨rfl, rfl⟩
    exact hocc h2

/-- Witness of C2: column 3 of the empty grid. -/
theorem calculate_position_lowest_empty_witness :
    empty_grid 3 0 = ' ' ∧
    (valid_move empty_grid (((3 : Fin P4_COLUMNS).val : Int) + 1) = .ret 1 ∧
    ∃ r : Fin P4_ROWS,
      calculate_position empty_grid ((3 : Fin P4_COLUMNS).val : Int) ⟨0, 0⟩
        = .ret { column := (3 : Fin P4_COLUMNS).val, row := r.val } ∧
      empty_grid 3 r = ' ' ∧
      (∀ r1 : Fin P4_ROWS, empty_grid 3 r1 = ' ' → r1 ≤ r) ∧
      (∀ r1 : Fin P4_ROWS, r < r1 → occupied empty_grid 3 r1) ∧
      ∀ token : Char, ∃ g1 : Grid,
        empty_grid.write ((3 : Fin P4_COLUMNS).val : Int) (r.val : Int) token = .ret g1 ∧
        g1 3 r = token ∧
        ∀ c1 r1, occupied empty_grid c1 r1 → g1 c1 r1 = empty_grid c1 r1) :=
  ⟨rfl, calculate_position_lowest_empty empty_grid 3 ⟨0, 0⟩ rfl⟩

/-- C9: `is_grid_full` returns 1 exactly when none of the 42 cells holds the
blank, it returns 0 otherwise, and it returns 0 on the grid `initialize_grid`
produces, whatever the grid held before. -/
theorem is_grid_full_iff (g : Grid) :
    (is_grid_full g = .ret 1 ↔ ∀ (c : Fin P4_COLUMNS) (r : Fin P4_ROWS), g c r ≠ ' ') ∧
    (is_grid_full g = .ret 1 ∨ is_grid_full g = .ret 0) ∧
    ∃ g1 : Grid, initialize_grid g = .ret g1 ∧ (∀ c r, g1 c r = ' ') ∧
      is_grid_full g1 = .ret 0 := by
  refine ⟨?_, ?_, ?_⟩
  · constructor
    · intro h
      rcases is_grid_full_cases g with ⟨_, h2⟩ | ⟨h1, _⟩
      · exact h2
      · rw [h1] at h; cases h
    · intro h
      rcases is_grid_full_cases g with ⟨h1, _⟩ | ⟨_, c, r, h2⟩
      · exact h1
      · exact absurd h2 (h c r)
  · rcases is_grid_full_cases g with ⟨h1, _⟩ | ⟨h1, _⟩
    · left; exact h1
    · right; exact h1
  · refine ⟨empty_grid, initialize_grid_eq g, fun _ _ => rfl, ?_⟩
    rcases is_grid_full_cases empty_grid with ⟨_, h2⟩ | ⟨h1, _⟩
    · exact absurd rfl (h2 0 0)
    · exact h1

/-! ## The counting loop returns -/

theorem valid_position_ne_zero (pos : position) :
    valid_position pos ≠ 0 ↔ in_grid pos.column pos.row := by
  have h7 : P4_COLUMNS = 7 := rfl
  have h6 : P4_ROWS = 6 := rfl
  unfold valid_position in_grid
  simp only
  by_cases hr : pos.row ≥ (P4_ROWS : Int) ∨ pos.row < 0
  · rw [if_pos hr]
    constructor
    · intro h; exact absurd rfl h
    · intro h; omega
  · rw [if_neg hr]
    by_cases hc : pos.column ≥ (P4_COLUMNS : Int) ∨ pos.column < 0
    · rw [if_pos hc]
      constructor
      · intro h; exact absurd rfl h
      · intro h; omega
    · rw [if_neg hc]
      constructor
      · intro _; omega
      · intro _; decide

/-- More fuel does not change a result of the counting loop. -/
theorem calculate_token_count_from_to_loop_fuel (g : Grid) (h v : Int) (token : Char) :
    ∀ (fuel : Nat) (tmp : position) (count n : Nat),
      calculate_token_count_from_to_loop g h v token fuel tmp count = .ret n →
      ∀ k, calculate_token_count_from_to_loop g h v token (fuel + k) tmp count = .ret n := by
  intro fuel
  induction fuel with
  | zero => intro tmp count n hn; simp [calculate_token_count_from_to_loop] at hn
  | succ f ih =>
    intro tmp count n hn k
    have e : f + 1 + k = (f + k) + 1 := by omega
    rw [e]
    unfold calculate_token_count_from_to_loop at hn ⊢
    by_cases hv : valid_position tmp ≠ 0
    · rw [if_pos hv] at hn ⊢
      obtain ⟨ch, hread, hrest⟩ := Exec.bind_eq_ret hn
      rw [hread, Exec.bind_ret]
      by_cases hc : ch = token
      · rw [if_pos hc] at hrest ⊢
        exact ih _ _ _ hrest k
      · rw [if_neg hc] at hrest ⊢
        exact hrest
    · rw [if_neg hv] at hn ⊢
      exact hn

/-- The counting loop returns a count as soon as the fuel exceeds a measure
that every step from a cell of the grid decreases. -/
theorem calculate_token_count_from_to_loop_total (g : Grid) (h v : Int) (token : Char)
    (m : position → Nat)
    (hm : ∀ tmp : position, in_grid tmp.column tmp.row →
      m { column := tmp.column + h, row := tmp.row + v } < m tmp) :
    ∀ (fuel : Nat) (tmp : position) (count : Nat), m tmp < fuel →
      ∃ n, calculate_token_count_from_to_loop g h v token fuel tmp count = .ret n := by
  intro fuel
  induction fuel with
  | zero => intro tmp count hlt; exact absurd hlt (Nat.not_lt_zero _)
  | succ f ih =>
    intro tmp count hlt
    unfold calculate_token_count_from_to_loop
    by_cases hv : valid_position tmp ≠ 0
    · rw [if_pos hv]
      have hin := (valid_position_ne_zero tmp).mp hv
      obtain ⟨c, r, _, _, hread⟩ := Grid.read_in_grid g tmp.column tmp.row hin
      rw [hread, Exec.bind_ret]
      by_cases hc : g c r = token
      · rw [if_pos hc]
        exact ih _ _ (by have := hm tmp hin; omega)
      · rw [if_neg hc]
        exact ⟨count, rfl⟩
    · rw [if_neg hv]
      exact ⟨count, rfl⟩

theorem cells_ahead_lt_fuel (h v : Int) (tmp : position) : cells_ahead h v tmp < COUNT_FUEL := by
  have h7 : P4_COLUMNS = 7 := rfl
  have h6 : P4_ROWS = 6 := rfl
  unfold cells_ahead COUNT_FUEL
  split_ifs with h1 h2 h3 h4 <;> (try unfold in_grid at h1) <;> omega

theorem cells_ahead_step (h v : Int) (hd : h ≠ 0 ∨ v ≠ 0) (tmp : position)
    (hin : in_grid tmp.column tmp.row) :
    cells_ahead h v { column := tmp.column + h, row := tmp.row + v } < cells_ahead h v tmp := by
  have h7 : P4_COLUMNS = 7 := rfl
  have h6 : P4_ROWS = 6 := rfl
  unfold cells_ahead
  rw [if_pos hin]
  unfold in_grid at hin
  simp only
  split_ifs with h1 h2 h3 h4 <;> (try unfold in_grid at h1) <;> omega

/-- The function `calculate_token_count_from_to` returns a count for every
direction other than `(0, 0)`. -/
theorem calculate_token_count_from_to_total (g : Grid) (pos : position) (h v : Int)
    (token : Char) (hd : h ≠ 0 ∨ v ≠ 0) :
    ∃ n, calculate_token_count_from_to g pos h v token = .ret n :=
  calculate_token_count_from_to_loop_total g h v token (cells_ahead h v)
    (cells_ahead_step h v hd) COUNT_FUEL _ 1 (cells_ahead_lt_fuel h v _)

theorem calculate_token_count_total (g : Grid) (pos : position) (token : Char) :
    ∃ n, calculate_token_count g pos token = .ret n := by
  obtain ⟨a1, e1⟩ := calculate_token_count_from_to_total g pos 0 1 token (by decide)
  obtain ⟨a2, e2⟩ := calculate_token_count_from_to_total g pos 1 0 token (by decide)
  obtain ⟨a3, e3⟩ := calculate_token_count_from_to_total g pos (-1) 0 token (by decide)
  obtain ⟨a4, e4⟩ := calculate_token_count_from_to_total g pos 1 1 token (by decide)
  obtain ⟨a5, e5⟩ := calculate_token_count_from_to_total g pos (-1) (-1) token (by decide)
  obtain ⟨a6, e6⟩ := calculate_token_count_from_to_total g pos 1 (-1) token (by decide)
  obtain ⟨a7, e7⟩ := calculate_token_count_from_to_total g pos (-1) 1 token (by decide)
  unfold calculate_token_count
  rw [e1, e2, e3, e4, e5, e6, e7]
  exact ⟨_, rfl⟩

theorem game_status_cases (g : Grid) (pos : position) (token : Char) :
    (is_grid_full g = .ret 1 ∧ game_status g pos token = .ret STATUS_DRAW) ∨
    (is_grid_full g = .ret 0 ∧ ∃ n, calculate_token_count g pos token = .ret n ∧
      ((4 ≤ n ∧ game_status g pos token = .ret STATUS_WIN) ∨
       (n < 4 ∧ game_status g pos token = .ret STATUS_OK))) := by
  obtain ⟨n, hn⟩ := calculate_token_count_total g pos token
  unfold game_status
  rcases is_grid_full_cases g with ⟨h1, _⟩ | ⟨h1, _⟩
  · left
    rw [h1]
    exact ⟨rfl, rfl⟩
  · right
    rw [h1, hn]
    refine ⟨rfl, n, rfl, ?_⟩
    by_cases h4 : n ≥ 4
    · left
      exact ⟨h4, by simp [h4]⟩
    · right
      exact ⟨by omega, by simp [h4]⟩

/-! ## One turn of the loop -/

theorem valid_move_cases (g : Grid) (col : Int) :
    valid_move g col = .ret 1 ∨ valid_move g col = .ret 0 := by
  have h7 : P4_COLUMNS = 7 := rfl
  by_cases hcol : 1 ≤ col ∧ col ≤ 7
  · have hv := valid_move_fin g ⟨(col - 1).toNat, by omega⟩
    have e : (((col - 1).toNat : Nat) : Int) + 1 = col := by omega
    simp only [e] at hv
    rw [hv]
    by_cases hb : g ⟨(col - 1).toNat, by omega⟩ 0 = ' '
    · left; rw [if_pos hb]
    · right; rw [if_neg hb]
  · right
    exact valid_move_with_outside g.read col hcol

theorem main_turn_rejected (pos0 : position) (s : Game) (move : Int)
    (h : valid_move s.grid move = .ret 0) : main_turn pos0 s (.play move) = .ret s := by
  unfold main_turn
  simp only [h, Exec.bind_ret, if_true]

theorem main_turn_accepted (pos0 : position) (s : Game) (move : Int)
    (h : valid_move s.grid move = .ret 1) :
    ∃ (c : Fin P4_COLUMNS) (r : Fin P4_ROWS) (status : Int),
      (c.val : Int) = move - 1 ∧
      calculate_position s.grid (move - 1) pos0 = .ret { column := c.val, row := r.val } ∧
      s.grid c r = ' ' ∧ (∀ r1 : Fin P4_ROWS, r < r1 → s.grid c r1 ≠ ' ') ∧
      s.grid.write (c.val : Int) (r.val : Int) s.token = .ret (s.grid.set c r s.token) ∧
      game_status (s.grid.set c r s.token) { column := c.val, row := r.val } s.token
        = .ret status ∧
      (status = STATUS_OK ∨ status = STATUS_WIN ∨ status = STATUS_DRAW) ∧
      main_turn pos0 s (.play move) = .ret (next_game s (s.grid.set c r s.token) status) := by
  obtain ⟨c, hc, htop⟩ := valid_move_eq_one s.grid move h
  have e : move - 1 = (c.val : Int) := by omega
  obtain ⟨r, hpos, hempty, hbelow⟩ := calculate_position_fin s.grid c pos0 ⟨0, htop⟩
  have hw := Grid.write_fin s.grid c r s.token
  have hst : ∃ status, game_status (s.grid.set c r s.token) { column := c.val, row := r.val }
      s.token = .ret status ∧
      (status = STATUS_OK ∨ status = STATUS_WIN ∨ status = STATUS_DRAW) := by
    rcases game_status_cases (s.grid.set c r s.token) { column := c.val, row := r.val } s.token
      with ⟨_, h2⟩ | ⟨_, n, _, ⟨_, h2⟩ | ⟨_, h2⟩⟩
    · exact ⟨_, h2, Or.inr (Or.inr rfl)⟩
    · exact ⟨_, h2, Or.inr (Or.inl rfl)⟩
    · exact ⟨_, h2, Or.inl rfl⟩
  obtain ⟨status, hstatus, hcases⟩ := hst
  refine ⟨c, r, status, e.symm, by rw [e]; exact hpos, hempty, hbelow, hw, hstatus, hcases, ?_⟩
  unfold main_turn
  simp only [h, Exec.bind_ret, e, hpos, hw, hstatus]
  rw [if_neg (by decide)]
  unfold next_game
  by_cases hs : status ≠ STATUS_OK
  · rw [if_pos hs, if_pos hs]
  · rw [if_neg hs, if_neg hs]

/-! ## Reachable states -/

theorem Exec.eq_ret_value {α : Type} (d : α) (x : Exec α) (h : x.is_ret = true) :
    x = .ret (x.value d) := by
  cases x with
  | ret a => rfl
  | out_of_bounds => cases h
  | out_of_fuel => cases h

theorem gravity_empty_grid : gravity empty_grid := by
  intro c r r1 _ hocc
  exact absurd rfl hocc

theorem gravity_set (g : Grid) (c : Fin P4_COLUMNS) (r : Fin P4_ROWS) (token : Char)
    (hg : gravity g) (hbelow : ∀ r1 : Fin P4_ROWS, r < r1 → g c r1 ≠ ' ')
    (ht : token ≠ ' ') : gravity (g.set c r token) := by
  intro c1 a b hab hocc
  unfold occupied at hocc ⊢
  by_cases hb : c1 = c ∧ b = r
  · obtain ⟨rfl, rfl⟩ := hb
    rw [Grid.set_same]
    exact ht
  · rw [Grid.set_other g c c1 r b token hb]
    by_cases ha : c1 = c ∧ a = r
    · obtain ⟨rfl, rfl⟩ := ha
      exact hbelow b hab
    · rw [Grid.set_other g c c1 r a token ha] at hocc
      exact hg c1 a b hab hocc

theorem reachable_invariant (s : Game) (h : Reachable s) :
    gravity s.grid ∧ (s.token = PLAYER1_TOKEN ∨ s.token = PLAYER2_TOKEN) := by
  induction h with
  | start s hs =>
    rw [main_start_eq] at hs
    have e := Exec.ret.inj hs
    subst e
    exact ⟨gravity_empty_grid, Or.inl rfl⟩
  | turn s s1 pos0 inp _ _ ht ih =>
    cases inp with
    | error =>
      have e : s1 = { s with phase := .exited EXIT_FAILURE } := (Exec.ret.inj ht).symm
      subst e
      exact ih
    | quit =>
      have e : s1 = { s with phase := .exited 0 } := (Exec.ret.inj ht).symm
      subst e
      exact ih
    | new_input =>
      have e : s1 = s := (Exec.ret.inj ht).symm
      subst e
      exact ih
    | play move =>
      rcases valid_move_cases s.grid move with h1 | h0
      · obtain ⟨c, r, status, _, _, _, hbelow, _, _, _, hturn⟩ :=
          main_turn_accepted pos0 s move h1
        rw [hturn] at ht
        have e := (Exec.ret.inj ht).symm
        subst e
        have htok : s.token ≠ ' ' := by
          rcases ih.2 with h | h <;> rw [h] <;> decide
        have hg := gravity_set s.grid c r s.token ih.1 hbelow htok
        unfold next_game
        by_cases hs : status ≠ STATUS_OK
        · rw [if_pos hs]
          exact ⟨hg, ih.2⟩
        · rw [if_neg hs]
          refine ⟨hg, ?_⟩
          by_cases hp : s.token = PLAYER1_TOKEN
          · right; simp only [hp, if_true]
          · left; simp only [hp, if_false]
      · rw [main_turn_rejected pos0 s move h0] at ht
        have e := (Exec.ret.inj ht).symm
        subst e
        exact ih

theorem reachable_main_loop (pos0 : position) :
    ∀ (inputs : List Input) (s s1 : Game), Reachable s →
      main_loop pos0 s inputs = .ret s1 → Reachable s1 := by
  intro inputs
  induction inputs with
  | nil =>
    intro s s1 hr h
    have e : s1 = s := (Exec.ret.inj h).symm
    subst e
    exact hr
  | cons inp rest ih =>
    intro s s1 hr h
    unfold main_loop at h
    cases hp : s.phase with
    | playing =>
      rw [hp] at h
      obtain ⟨s2, h2, h3⟩ := Exec.bind_eq_ret h
      exact ih s2 s1 (Reachable.turn s s2 pos0 inp hr hp h2) h3
    | ended status =>
      rw [hp] at h
      have e : s1 = s := (Exec.ret.inj h).symm
      subst e
      exact hr
    | exited code =>
      rw [hp] at h
      have e : s1 = s := (Exec.ret.inj h).symm
      subst e
      exact hr

theorem reachable_start_game : Reachable start_game :=
  Reachable.start start_game main_start_eq

theorem reachable_game_after (moves : List Int)
    (h : (main_loop ⟨0, 0⟩ start_game (moves.map Input.play)).is_ret = true) :
    Reachable (game_after moves) :=
  reachable_main_loop ⟨0, 0⟩ (moves.map Input.play) start_game (game_after moves)
    reachable_start_game (Exec.eq_ret_value start_game _ h)

theorem top_empty_iff_of_gravity (g : Grid) (c : Fin P4_COLUMNS) (hg : gravity g) :
    g c 0 = ' ' ↔ ∃ r : Fin P4_ROWS, g c r = ' ' := by
  constructor
  · intro h; exact ⟨0, h⟩
  · rintro ⟨r, hr⟩
    by_contra htop
    by_cases h0 : r = 0
    · rw [h0] at hr; exact htop hr
    · have hlt : (0 : Fin P4_ROWS) < r := Fin.pos_iff_ne_zero.mpr h0
      exact hg c 0 r hlt htop hr

/-! ## Claims on the turn loop -/

theorem main_loop_stopped (pos0 : position) (s : Game) (inputs : List Input)
    (h : s.phase ≠ .playing) : main_loop pos0 s inputs = .ret s := by
  cases inputs with
  | nil => rfl
  | cons inp rest =>
    unfold main_loop
    cases hp : s.phase with
    | playing => exact absurd hp h
    | ended status => rfl
    | exited code => rfl

theorem main_loop_playing (pos0 : position) (s : Game) (inp : Input) (rest : List Input)
    (h : s.phase = .playing) :
    main_loop pos0 s (inp :: rest) = (main_turn pos0 s inp).bind fun s1 => main_loop pos0 s1 rest := by
  conv => lhs; unfold main_loop
  rw [h]

/-- C5: on every state `main` reaches from `initialize_grid` by turns of its
loop, rejected or played, no column of the grid has an empty cell below an
occupied one: if `grid[c][r]` is occupied and `r < r1` then `grid[c][r1]` is
occupied. -/
theorem gravity_of_reachable (s : Game) (h : Reachable s) :
    ∀ (c : Fin P4_COLUMNS) (r r1 : Fin P4_ROWS),
      r < r1 → s.grid c r ≠ ' ' → s.grid c r1 ≠ ' ' :=
  (reachable_invariant s h).1

/-- Witness of C5: the state after the columns 4, 4, 3, 4, 9, 1. -/
theorem gravity_of_reachable_witness :
    Reachable (game_after [4, 4, 3, 4, 9, 1]) ∧
    ∀ (c : Fin P4_COLUMNS) (r r1 : Fin P4_ROWS),
      r < r1 → (game_after [4, 4, 3, 4, 9, 1]).grid c r ≠ ' ' →
        (game_after [4, 4, 3, 4, 9, 1]).grid c r1 ≠ ' ' :=
  ⟨reachable_game_after _ (by decide),
   gravity_of_reachable _ (reachable_game_after _ (by decide))⟩

/-- C6: an input that is a column outside `[1,7]`, a column whose top cell is
occupied, or an unrecognised token (`ACTION_NEW_INPUT`) leaves the whole state
of the game as it is (every cell, the active player, the phase), and the loop
goes on with the next input. -/
theorem rejected_input_keeps_state (pos0 : position) (s : Game) (inp : Input)
    (h : inp = .new_input ∨
      ∃ move : Int, inp = .play move ∧
        (¬ (1 ≤ move ∧ move ≤ 7) ∨
         ∃ c : Fin P4_COLUMNS, (c.val : Int) + 1 = move ∧ occupied s.grid c 0)) :
    main_turn pos0 s inp = .ret s ∧
    (s.phase = .playing → ∀ rest : List Input,
      main_loop pos0 s (inp :: rest) = main_loop pos0 s rest) := by
  have hturn : main_turn pos0 s inp = .ret s := by
    rcases h with rfl | ⟨move, rfl, hout | ⟨c, hc, hocc⟩⟩
    · rfl
    · apply main_turn_rejected
      exact valid_move_with_outside s.grid.read move hout
    · apply main_turn_rejected
      rw [← hc, valid_move_fin, if_neg hocc]
  refine ⟨hturn, ?_⟩
  intro hp rest
  rw [main_loop_playing pos0 s inp rest hp, hturn, Exec.bind_ret]

/-- Witness of C6: the input 9 at the start of the game. -/
theorem rejected_input_keeps_state_witness :
    (Input.play 9 = .new_input ∨
      ∃ move : Int, Input.play 9 = .play move ∧
        (¬ (1 ≤ move ∧ move ≤ 7) ∨
         ∃ c : Fin P4_COLUMNS, (c.val : Int) + 1 = move ∧ occupied start_game.grid c 0)) ∧
    (main_turn ⟨0, 0⟩ start_game (.play 9) = .ret start_game ∧
    (start_game.phase = .playing → ∀ rest : List Input,
      main_loop ⟨0, 0⟩ start_game (.play 9 :: rest) = main_loop ⟨0, 0⟩ start_game rest)) :=
  ⟨Or.inr ⟨9, rfl, Or.inl (by decide)⟩,
   rejected_input_keeps_state ⟨0, 0⟩ start_game (.play 9)
     (Or.inr ⟨9, rfl, Or.inl (by decide)⟩)⟩

/-- C7: a move into a column accepted by `valid_move` changes exactly one
cell, the cell `(move-1, r)` that `calculate_position` returns: it was empty and
holds the active player's token afterwards; every other cell keeps its value, so
an occupied cell keeps its content and stays occupied. -/
theorem legal_move_changes_one_cell (pos0 : position) (s : Game) (move : Int)
    (h : valid_move s.grid move = .ret 1) :
    ∃ (c : Fin P4_COLUMNS) (r : Fin P4_ROWS) (s1 : Game),
      (c.val : Int) = move - 1 ∧
      calculate_position s.grid (move - 1) pos0 = .ret { column := c.val, row := r.val } ∧
      main_turn pos0 s (.play move) = .ret s1 ∧
      s.grid c r = ' ' ∧ s1.grid c r = s.token ∧
      (∀ c1 r1, ¬ (c1 = c ∧ r1 = r) → s1.grid c1 r1 = s.grid c1 r1) ∧
      (∀ c1 r1, occupied s.grid c1 r1 →
        s1.grid c1 r1 = s.grid c1 r1 ∧ occupied s1.grid c1 r1) := by
  obtain ⟨c, r, status, hc, hpos, hempty, _, _, _, _, hturn⟩ :=
    main_turn_accepted pos0 s move h
  have hgrid : (next_game s (s.grid.set c r s.token) status).grid = s.grid.set c r s.token := by
    unfold next_game
    by_cases hs : status ≠ STATUS_OK
    · rw [if_pos hs]
    · rw [if_neg hs]
  refine ⟨c, r, _, hc, hpos, hturn, hempty, ?_, ?_, ?_⟩
  · rw [hgrid, Grid.set_same]
  · intro c1 r1 hne
    rw [hgrid, Grid.set_other _ _ _ _ _ _ hne]
  · intro c1 r1 hocc
    have hne : ¬ (c1 = c ∧ r1 = r) := by
      rintro ⟨rfl, rfl⟩
      exact hocc hempty
    rw [hgrid]
    unfold occupied
    rw [Grid.set_other _ _ _ _ _ _ hne]
    exact ⟨rfl, hocc⟩

/-- Witness of C7: column 4 at the start of the game. -/
theorem legal_move_changes_one_cell_witness :
    valid_move start_game.grid 4 = .ret 1 ∧
    (∃ (c : Fin P4_COLUMNS) (r : Fin P4_ROWS) (s1 : Game),
      (c.val : Int) = 4 - 1 ∧
      calculate_position start_game.grid (4 - 1) ⟨0, 0⟩ = .ret { column := c.val, row := r.val } ∧
      main_turn ⟨0, 0⟩ start_game (.play 4) = .ret s1 ∧
      start_game.grid c r = ' ' ∧ s1.grid c r = start_game.token ∧
      (∀ c1 r1, ¬ (c1 = c ∧ r1 = r) → s1.grid c1 r1 = start_game.grid c1 r1) ∧
      (∀ c1 r1, occupied start_game.grid c1 r1 →
        s1.grid c1 r1 = start_game.grid c1 r1 ∧ occupied s1.grid c1 r1)) :=
  ⟨by decide, legal_move_changes_one_cell ⟨0, 0⟩ start_game 4 (by decide)⟩

/-- C8: after a move into a column accepted by `valid_move`, `game_status`
returns one of the three statuses; on `STATUS_WIN` or `STATUS_DRAW` the loop ends
with that status, `token` still being the token just placed, so that the winner
announced is player 1 for 'O' and player 2 otherwise; on `STATUS_OK` the token
switches to the other player's and the loop goes on. -/
theorem turn_outcome_after_legal_move (pos0 : position) (s : Game) (move : Int)
    (h : valid_move s.grid move = .ret 1) :
    ∃ (pos : position) (g1 : Grid) (status : Int) (s1 : Game),
      calculate_position s.grid (move - 1) pos0 = .ret pos ∧
      s.grid.write pos.column pos.row s.token = .ret g1 ∧
      game_status g1 pos s.token = .ret status ∧
      main_turn pos0 s (.play move) = .ret s1 ∧
      s1.grid = g1 ∧
      (status = STATUS_OK ∨ status = STATUS_WIN ∨ status = STATUS_DRAW) ∧
      (status = STATUS_WIN →
        s1.phase = .ended STATUS_WIN ∧ s1.token = s.token ∧
        main_result s1 = .wins (if s.token = PLAYER1_TOKEN then 1 else 2)) ∧
      (status = STATUS_DRAW → s1.phase = .ended STATUS_DRAW ∧ main_result s1 = .draw) ∧
      (status = STATUS_OK →
        s1.phase = .playing ∧
        s1.token = (if s.token = PLAYER1_TOKEN then PLAYER2_TOKEN else PLAYER1_TOKEN)) ∧
      (s.phase = .playing → ∀ rest : List Input,
        main_loop pos0 s (.play move :: rest)
          = if status = STATUS_OK then main_loop pos0 s1 rest else .ret s1) := by
  obtain ⟨c, r, status, hc, hpos, _, _, hw, hstatus, hcases, hturn⟩ :=
    main_turn_accepted pos0 s move h
  refine ⟨_, _, status, _, hpos, hw, hstatus, hturn, ?_, hcases, ?_, ?_, ?_, ?_⟩
  · unfold next_game
    by_cases hs : status ≠ STATUS_OK
    · rw [if_pos hs]
    · rw [if_neg hs]
  · intro hs
    subst hs
    exact ⟨rfl, rfl, rfl⟩
  · intro hs
    subst hs
    exact ⟨rfl, rfl⟩
  · intro hs
    subst hs
    exact ⟨rfl, rfl⟩
  · intro hp rest
    rw [main_loop_playing pos0 s _ rest hp, hturn, Exec.bind_ret]
    by_cases hs : status = STATUS_OK
    · rw [if_pos hs]
    · rw [if_neg hs]
      apply main_loop_stopped
      unfold next_game
      rw [if_pos hs]
      intro hcontra
      cases hcontra

/-- Witness of C8: column 4 at the start of the game. -/
theorem turn_outcome_after_legal_move_witness :
    valid_move start_game.grid 4 = .ret 1 ∧
    (∃ (pos : position) (g1 : Grid) (status : Int) (s1 : Game),
      calculate_position start_game.grid (4 - 1) ⟨0, 0⟩ = .ret pos ∧
      start_game.grid.write pos.column pos.row start_game.token = .ret g1 ∧
      game_status g1 pos start_game.token = .ret status ∧
      main_turn ⟨0, 0⟩ start_game (.play 4) = .ret s1 ∧
      s1.grid = g1 ∧
      (status = STATUS_OK ∨ status = STATUS_WIN ∨ status = STATUS_DRAW) ∧
      (status = STATUS_WIN →
        s1.phase = .ended STATUS_WIN ∧ s1.token = start_game.token ∧
        main_result s1 = .wins (if start_game.token = PLAYER1_TOKEN then 1 else 2)) ∧
      (status = STATUS_DRAW → s1.phase = .ended STATUS_DRAW ∧ main_result s1 = .draw) ∧
      (status = STATUS_OK →
        s1.phase = .playing ∧
        s1.token = (if start_game.token = PLAYER1_TOKEN then PLAYER2_TOKEN else PLAYER1_TOKEN)) ∧
      (start_game.phase = .playing → ∀ rest : List Input,
        main_loop ⟨0, 0⟩ start_game (.play 4 :: rest)
          = if status = STATUS_OK then main_loop ⟨0, 0⟩ s1 rest else .ret s1)) :=
  ⟨by decide, turn_outcome_after_legal_move ⟨0, 0⟩ start_game 4 (by decide)⟩

/-- C10: on a grid with the gravity property, in particular on the grid of
every reachable state, and for `col` in 1..7, `valid_move(col)` returns 1
exactly when column `col-1` has an empty cell: the test of row 0 alone decides
whether the column is full. -/
theorem valid_move_iff_column_not_full (g : Grid) (col : Int)
    (hcol : 1 ≤ col ∧ col ≤ 7)
    (hg : gravity g ∨ ∃ s : Game, Reachable s ∧ s.grid = g) :
    valid_move g col = .ret 1 ↔ ∃ r : Fin P4_ROWS, g.read (col - 1) (r.val : Int) = .ret ' ' := by
  have h7 : P4_COLUMNS = 7 := rfl
  have hgrav : gravity g := by
    rcases hg with hg | ⟨s, hs, rfl⟩
    · exact hg
    · exact (reachable_invariant s hs).1
  have hv := valid_move_fin g ⟨(col - 1).toNat, by omega⟩
  have e : (((col - 1).toNat : Nat) : Int) + 1 = col := by omega
  have e1 : col - 1 = (((col - 1).toNat : Nat) : Int) := by omega
  simp only [e] at hv
  have hread : ∀ r : Fin P4_ROWS, g.read (col - 1) (r.val : Int)
      = .ret (g ⟨(col - 1).toNat, by omega⟩ r) := by
    intro r
    have := Grid.read_fin g ⟨(col - 1).toNat, by omega⟩ r
    simp only [← e1] at this
    exact this
  have htop := top_empty_iff_of_gravity g ⟨(col - 1).toNat, by omega⟩ hgrav
  rw [hv]
  constructor
  · intro h
    have h0 : g ⟨(col - 1).toNat, by omega⟩ 0 = ' ' := by
      by_contra hne
      rw [if_neg hne] at h
      cases h
    exact ⟨0, by rw [hread 0, h0]⟩
  · rintro ⟨r, hr⟩
    rw [hread r] at hr
    rw [if_pos (htop.mpr ⟨r, Exec.ret.inj hr⟩)]

/-- Witness of C10: column 4 after six tokens have filled it. -/
theorem valid_move_iff_column_not_full_witness :
    ((1 : Int) ≤ 4 ∧ (4 : Int) ≤ 7) ∧
    (gravity (game_after [4, 4, 4, 4, 4, 4]).grid ∨
      ∃ s : Game, Reachable s ∧ s.grid = (game_after [4, 4, 4, 4, 4, 4]).grid) ∧
    (valid_move (game_after [4, 4, 4, 4, 4, 4]).grid 4 = .ret 1 ↔
      ∃ r : Fin P4_ROWS,
        (game_after [4, 4, 4, 4, 4, 4]).grid.read (4 - 1) (r.val : Int) = .ret ' ') :=
  ⟨by decide, Or.inr ⟨_, reachable_game_after _ (by decide), rfl⟩,
   valid_move_iff_column_not_full _ 4 (by decide)
     (Or.inr ⟨_, reachable_game_after _ (by decide), rfl⟩)⟩

/-! ## The last cell of the board

`game_status` asks `is_grid_full` first and returns `STATUS_DRAW` on a full
grid without counting tokens.  The game `last_cell_moves` followed by column 6
is legal play in which the 42nd token fills the board and makes four 'X' in a
line on the cells (5,0), (4,1), (3,2), (2,3). -/

set_option maxRecDepth 100000 in
/-- C3: at a reachable state whose board is `last_cell_board` with 'X' to
play, column 6 is accepted and its token lands on (5,0), the only empty cell;
the grid then holds 'X' on (5,0), (4,1), (3,2) and (2,3),
`calculate_token_count` is 4, and `game_status` returns `STATUS_DRAW`, not
`STATUS_WIN`. -/
theorem game_status_draw_despite_four :
    Reachable (game_after last_cell_moves) ∧
    (game_after last_cell_moves).phase = .playing ∧
    (game_after last_cell_moves).token = PLAYER2_TOKEN ∧
    (∀ c r, (game_after last_cell_moves).grid c r = last_cell_board c r) ∧
    valid_move last_cell_board 6 = .ret 1 ∧
    calculate_position last_cell_board (6 - 1) ⟨0, 0⟩ = .ret ⟨5, 0⟩ ∧
    (∀ c r, ¬ (c = 5 ∧ r = 0) → last_cell_board c r ≠ ' ') ∧
    last_cell_board.write 5 0 PLAYER2_TOKEN = .ret (last_cell_board.set 5 0 PLAYER2_TOKEN) ∧
    (last_cell_board.set 5 0 PLAYER2_TOKEN) 5 0 = PLAYER2_TOKEN ∧
    (last_cell_board.set 5 0 PLAYER2_TOKEN) 4 1 = PLAYER2_TOKEN ∧
    (last_cell_board.set 5 0 PLAYER2_TOKEN) 3 2 = PLAYER2_TOKEN ∧
    (last_cell_board.set 5 0 PLAYER2_TOKEN) 2 3 = PLAYER2_TOKEN ∧
    calculate_token_count (last_cell_board.set 5 0 PLAYER2_TOKEN) ⟨5, 0⟩ PLAYER2_TOKEN
      = .ret 4 ∧
    game_status (last_cell_board.set 5 0 PLAYER2_TOKEN) ⟨5, 0⟩ PLAYER2_TOKEN
      = .ret STATUS_DRAW ∧
    game_status (last_cell_board.set 5 0 PLAYER2_TOKEN) ⟨5, 0⟩ PLAYER2_TOKEN
      ≠ .ret STATUS_WIN :=
  ⟨reachable_game_after _ (by decide), by decide, by decide, by decide, by decide, by decide,
   by decide, Grid.write_fin last_cell_board 5 0 PLAYER2_TOKEN, by decide, by decide,
   by decide, by decide, by decide, by decide, by decide⟩

set_option maxRecDepth 100000 in
/-- C4: the 42 moves `last_cell_moves` followed by column 6 are all played;
the grid is then full, the counts from (5,0) towards (-1,1) and (1,-1) are 4 and
1, a run of 4 on that axis, and `game_status` returns `STATUS_DRAW`: `main`
leaves the loop with a draw and announces it. -/
theorem draw_announced_despite_four :
    (main_loop ⟨0, 0⟩ start_game ((last_cell_moves ++ [6]).map Input.play)).is_ret = true ∧
    (game_after (last_cell_moves ++ [6])).phase = .ended STATUS_DRAW ∧
    (game_after (last_cell_moves ++ [6])).token = PLAYER2_TOKEN ∧
    main_result (game_after (last_cell_moves ++ [6])) = .draw ∧
    (∀ c r, (game_after (last_cell_moves ++ [6])).grid c r ≠ ' ') ∧
    is_grid_full (game_after (last_cell_moves ++ [6])).grid = .ret 1 ∧
    calculate_token_count_from_to (game_after (last_cell_moves ++ [6])).grid ⟨5, 0⟩ (-1) 1
      PLAYER2_TOKEN = .ret 4 ∧
    calculate_token_count_from_to (game_after (last_cell_moves ++ [6])).grid ⟨5, 0⟩ 1 (-1)
      PLAYER2_TOKEN = .ret 1 ∧
    add_sub_one 1 4 = 4 ∧
    game_status (game_after (last_cell_moves ++ [6])).grid ⟨5, 0⟩ PLAYER2_TOKEN
      = .ret STATUS_DRAW := by
  decide

/-! ## What the counting loop computes -/

theorem holds_in_grid (g : Grid) (token : Char) (col row : Int) (h : holds g token col row) :
    in_grid col row := by
  by_contra hout
  unfold holds at h
  rw [Grid.read_outside g col row hout] at h
  cases h

theorem cells_ahead_pos (h v : Int) (hd : h ≠ 0 ∨ v ≠ 0) (tmp : position)
    (hin : in_grid tmp.column tmp.row) : 0 < cells_ahead h v tmp :=
  Nat.lt_of_le_of_lt (Nat.zero_le _) (cells_ahead_step h v hd tmp hin)

/-- The counting loop adds to `count` the number `k` of consecutive cells,
from `tmp` on, that are in the grid and hold `token`. -/
theorem calculate_token_count_from_to_loop_spec (g : Grid) (h v : Int) (token : Char)
    (hd : h ≠ 0 ∨ v ≠ 0) :
    ∀ (fuel : Nat) (tmp : position) (count : Nat),
      cells_ahead h v tmp < fuel → count + cells_ahead h v tmp < UINT_MOD →
      ∃ k : Nat,
        calculate_token_count_from_to_loop g h v token fuel tmp count = .ret (count + k) ∧
        k ≤ cells_ahead h v tmp ∧
        (∀ i : Nat, i < k → holds g token (tmp.column + i * h) (tmp.row + i * v)) ∧
        ¬ holds g token (tmp.column + k * h) (tmp.row + k * v) := by
  intro fuel
  induction fuel with
  | zero => intro tmp count hlt _; exact absurd hlt (Nat.not_lt_zero _)
  | succ f ih =>
    intro tmp count hlt hcount
    unfold calculate_token_count_from_to_loop
    by_cases hv : valid_position tmp ≠ 0
    · rw [if_pos hv]
      have hin := (valid_position_ne_zero tmp).mp hv
      obtain ⟨c, r, hc, hr, hread⟩ := Grid.read_in_grid g tmp.column tmp.row hin
      rw [hread, Exec.bind_ret]
      by_cases htok : g c r = token
      · rw [if_pos htok]
        have hstep := cells_ahead_step h v hd tmp hin
        have hmod : (count + 1) % UINT_MOD = count + 1 := Nat.mod_eq_of_lt (by omega)
        rw [hmod]
        obtain ⟨k, hk1, hk2, hk3, hk4⟩ :=
          ih { column := tmp.column + h, row := tmp.row + v } (count + 1) (by omega) (by omega)
        refine ⟨k + 1, ?_, by omega, ?_, ?_⟩
        · rw [hk1]
          congr 1
          omega
        · intro i hi
          cases i with
          | zero =>
            simp only [Nat.cast_zero, zero_mul, add_zero]
            unfold holds
            rw [hread, htok]
          | succ j =>
            have := hk3 j (by omega)
            simp only at this
            have e1 : tmp.column + ((j + 1 : Nat) : Int) * h = tmp.column + h + (j : Int) * h := by
              push_cast; ring
            have e2 : tmp.row + ((j + 1 : Nat) : Int) * v = tmp.row + v + (j : Int) * v := by
              push_cast; ring
            rw [e1, e2]
            exact this
        · have e1 : tmp.column + ((k + 1 : Nat) : Int) * h = tmp.column + h + (k : Int) * h := by
            push_cast; ring
          have e2 : tmp.row + ((k + 1 : Nat) : Int) * v = tmp.row + v + (k : Int) * v := by
            push_cast; ring
          rw [e1, e2]
          exact hk4
      · rw [if_neg htok]
        refine ⟨0, rfl, Nat.zero_le _, fun i hi => absurd hi (Nat.not_lt_zero _), ?_⟩
        simp only [Nat.cast_zero, zero_mul, add_zero]
        unfold holds
        rw [hread]
        intro hh
        exact htok (Exec.ret.inj hh)
    · rw [if_neg hv]
      refine ⟨0, rfl, Nat.zero_le _, fun i hi => absurd hi (Nat.not_lt_zero _), ?_⟩
      simp only [Nat.cast_zero, zero_mul, add_zero]
      intro hh
      exact hv ((valid_position_ne_zero tmp).mpr (holds_in_grid g token _ _ hh))

/-- The function `calculate_token_count_from_to` returns `1 + k`, with `k` the
number of consecutive cells after `pos` in the direction `(h, v)` that are in
the grid and hold `token`. -/
theorem calculate_token_count_from_to_spec (g : Grid) (pos : position) (h v : Int)
    (token : Char) (hd : h ≠ 0 ∨ v ≠ 0) :
    ∃ k : Nat,
      calculate_token_count_from_to g pos h v token = .ret (1 + k) ∧
      k ≤ cells_ahead h v { column := pos.column + h, row := pos.row + v } ∧
      (∀ i : Nat, 1 ≤ i → i ≤ k → holds g token (pos.column + i * h) (pos.row + i * v)) ∧
      ¬ holds g token (pos.column + ((k + 1 : Nat) : Int) * h)
          (pos.row + ((k + 1 : Nat) : Int) * v) := by
  have hfuel := cells_ahead_lt_fuel h v { column := pos.column + h, row := pos.row + v }
  have h7 : P4_COLUMNS = 7 := rfl
  have hsmall : 1 + cells_ahead h v { column := pos.column + h, row := pos.row + v }
      < UINT_MOD := by
    unfold COUNT_FUEL at hfuel
    unfold UINT_MOD
    omega
  obtain ⟨k, hk1, hk2, hk3, hk4⟩ :=
    calculate_token_count_from_to_loop_spec g h v token hd COUNT_FUEL
      { column := pos.column + h, row := pos.row + v } 1 hfuel hsmall
  refine ⟨k, hk1, hk2, ?_, ?_⟩
  · intro i h1 hik
    obtain ⟨j, rfl⟩ : ∃ j, i = j + 1 := ⟨i - 1, by omega⟩
    have := hk3 j (by omega)
    simp only at this
    have e1 : pos.column + ((j + 1 : Nat) : Int) * h = pos.column + h + (j : Int) * h := by
      push_cast; ring
    have e2 : pos.row + ((j + 1 : Nat) : Int) * v = pos.row + v + (j : Int) * v := by
      push_cast; ring
    rw [e1, e2]
    exact this
  · have e1 : pos.column + ((k + 1 : Nat) : Int) * h = pos.column + h + (k : Int) * h := by
      push_cast; ring
    have e2 : pos.row + ((k + 1 : Nat) : Int) * v = pos.row + v + (k : Int) * v := by
      push_cast; ring
    rw [e1, e2]
    exact hk4

theorem valid_position_cases (pos : position) :
    (valid_position pos = 1 ∧ in_grid pos.column pos.row) ∨
    (valid_position pos = 0 ∧ ¬ in_grid pos.column pos.row) := by
  by_cases h : valid_position pos ≠ 0
  · left
    refine ⟨?_, (valid_position_ne_zero pos).mp h⟩
    unfold valid_position at h ⊢
    simp only at h ⊢
    split_ifs at h ⊢ <;> first | rfl | exact absurd rfl h
  · right
    exact ⟨not_not.mp h, fun hin => h ((valid_position_ne_zero pos).mpr hin)⟩

theorem valid_position_eq_one (pos : position) :
    valid_position pos = 1 ↔ in_grid pos.column pos.row := by
  rcases valid_position_cases pos with ⟨h1, h2⟩ | ⟨h1, h2⟩
  · exact ⟨fun _ => h2, fun _ => h1⟩
  · constructor
    · intro h; rw [h1] at h; cases h
    · intro h; exact absurd h h2

theorem cells_ahead_after (h v : Int) (pos : position) (hin : in_grid pos.column pos.row) :
    (0 < h → (cells_ahead h v { column := pos.column + h, row := pos.row + v } : Int)
        ≤ 6 - pos.column) ∧
    (h < 0 → (cells_ahead h v { column := pos.column + h, row := pos.row + v } : Int)
        ≤ pos.column) ∧
    (h = 0 → 0 < v → (cells_ahead h v { column := pos.column + h, row := pos.row + v } : Int)
        ≤ 5 - pos.row) ∧
    (h = 0 → v < 0 → (cells_ahead h v { column := pos.column + h, row := pos.row + v } : Int)
        ≤ pos.row) := by
  have h7 : P4_COLUMNS = 7 := rfl
  have h6 : P4_ROWS = 6 := rfl
  unfold in_grid at hin
  unfold cells_ahead
  simp only
  refine ⟨?_, ?_, ?_, ?_⟩
  · intro hh
    split_ifs with h1 <;> (try unfold in_grid at h1) <;> omega
  · intro hh
    split_ifs with h1 <;> (try unfold in_grid at h1) <;> omega
  · intro hh hv
    split_ifs with h1 <;> (try unfold in_grid at h1) <;> omega
  · intro hh hv
    split_ifs with h1 <;> (try unfold in_grid at h1) <;> omega

theorem add_sub_one_eq (a b : Nat) (h1 : 1 ≤ a + b) (h2 : a + b < UINT_MOD) :
    add_sub_one a b = a + b - 1 := by
  unfold add_sub_one
  unfold UINT_MOD at h2 ⊢
  omega

theorem max_eq (a b : Nat) : Connect4.max a b = Nat.max a b := by
  unfold Connect4.max
  by_cases h : a > b
  · rw [if_pos h]; exact (Nat.max_eq_left (Nat.le_of_lt h)).symm
  · rw [if_neg h]; exact (Nat.max_eq_right (Nat.le_of_not_lt h)).symm

theorem ray_le (g : Grid) (token : Char) (pos : position) (h v : Int) (k k1 : Nat)
    (hk : ray g token pos h v k)
    (hk1 : ∀ i : Nat, 1 ≤ i → i ≤ k1 →
      holds g token (pos.column + i * h) (pos.row + i * v)) : k1 ≤ k := by
  by_contra hlt
  exact hk.2 (hk1 (k + 1) (by omega) (by omega))

theorem calculate_token_count_from_to_ray (g : Grid) (pos : position) (h v : Int)
    (token : Char) (hd : h ≠ 0 ∨ v ≠ 0) :
    ∃ k : Nat,
      calculate_token_count_from_to g pos h v token = .ret (1 + k) ∧
      k ≤ cells_ahead h v { column := pos.column + h, row := pos.row + v } ∧
      ray g token pos h v k := by
  obtain ⟨k, h1, h2, h3, h4⟩ := calculate_token_count_from_to_spec g pos h v token hd
  exact ⟨k, h1, h2, h3, h4⟩

/-- The seven counts of `calculate_token_count` at a position of the grid,
and its result. -/
theorem calculate_token_count_rays (g : Grid) (pos : position) (token : Char)
    (hin : in_grid pos.column pos.row) :
    ∃ kd ke kw kse knw kne ksw : Nat,
      ray g token pos 0 1 kd ∧ ray g token pos 1 0 ke ∧ ray g token pos (-1) 0 kw ∧
      ray g token pos 1 1 kse ∧ ray g token pos (-1) (-1) knw ∧
      ray g token pos 1 (-1) kne ∧ ray g token pos (-1) 1 ksw ∧
      calculate_token_count_from_to g pos 0 1 token = .ret (1 + kd) ∧
      calculate_token_count_from_to g pos 1 0 token = .ret (1 + ke) ∧
      calculate_token_count_from_to g pos (-1) 0 token = .ret (1 + kw) ∧
      calculate_token_count_from_to g pos 1 1 token = .ret (1 + kse) ∧
      calculate_token_count_from_to g pos (-1) (-1) token = .ret (1 + knw) ∧
      calculate_token_count_from_to g pos 1 (-1) token = .ret (1 + kne) ∧
      calculate_token_count_from_to g pos (-1) 1 token = .ret (1 + ksw) ∧
      kd ≤ 5 ∧ ke + kw ≤ 6 ∧ kse + knw ≤ 6 ∧ kne + ksw ≤ 6 ∧
      add_sub_one (1 + ke) (1 + kw) = ke + kw + 1 ∧
      add_sub_one (1 + kse) (1 + knw) = kse + knw + 1 ∧
      add_sub_one (1 + kne) (1 + ksw) = kne + ksw + 1 ∧
      calculate_token_count g pos token
        = .ret (Nat.max (Nat.max (Nat.max (1 + kd) (ke + kw + 1)) (kse + knw + 1))
            (kne + ksw + 1)) := by
  obtain ⟨kd, e1, b1, r1⟩ := calculate_token_count_from_to_ray g pos 0 1 token (by decide)
  obtain ⟨ke, e2, b2, r2⟩ := calculate_token_count_from_to_ray g pos 1 0 token (by decide)
  obtain ⟨kw, e3, b3, r3⟩ := calculate_token_count_from_to_ray g pos (-1) 0 token (by decide)
  obtain ⟨kse, e4, b4, r4⟩ := calculate_token_count_from_to_ray g pos 1 1 token (by decide)
  obtain ⟨knw, e5, b5, r5⟩ :=
    calculate_token_count_from_to_ray g pos (-1) (-1) token (by decide)
  obtain ⟨kne, e6, b6, r6⟩ := calculate_token_count_from_to_ray g pos 1 (-1) token (by decide)
  obtain ⟨ksw, e7, b7, r7⟩ := calculate_token_count_from_to_ray g pos (-1) 1 token (by decide)
  have a1 := (cells_ahead_after 0 1 pos hin).2.2.1 rfl (by decide)
  have a2 := (cells_ahead_after 1 0 pos hin).1 (by decide)
  have a3 := (cells_ahead_after (-1) 0 pos hin).2.1 (by decide)
  have a4 := (cells_ahead_after 1 1 pos hin).1 (by decide)
  have a5 := (cells_ahead_after (-1) (-1) pos hin).2.1 (by decide)
  have a6 := (cells_ahead_after 1 (-1) pos hin).1 (by decide)
  have a7 := (cells_ahead_after (-1) 1 pos hin).2.1 (by decide)
  have hu : UINT_MOD = 4294967296 := by decide
  have s1 : add_sub_one (1 + ke) (1 + kw) = ke + kw + 1 := by
    rw [add_sub_one_eq _ _ (by omega) (by omega)]; omega
  have s2 : add_sub_one (1 + kse) (1 + knw) = kse + knw + 1 := by
    rw [add_sub_one_eq _ _ (by omega) (by omega)]; omega
  have s3 : add_sub_one (1 + kne) (1 + ksw) = kne + ksw + 1 := by
    rw [add_sub_one_eq _ _ (by omega) (by omega)]; omega
  refine ⟨kd, ke, kw, kse, knw, kne, ksw, r1, r2, r3, r4, r5, r6, r7,
    e1, e2, e3, e4, e5, e6, e7, by omega, by omega, by omega, by omega, s1, s2, s3, ?_⟩
  unfold calculate_token_count
  rw [e1, e2, e3, e4, e5, e6, e7]
  simp only [Exec.bind_ret, s1, s2, s3, max_eq]

/-! ## Claims on the directional counts -/

set_option linter.unusedVariables false in
/-- C15: for a valid position and a direction `(h, v)` with components in
`{-1, 0, 1}` other than `(0, 0)`, `calculate_token_count_from_to` returns
`1 + k` where `k` is the largest number such that the cells `pos + i * (h, v)`,
`i` in `1..k`, are all inside the grid and hold `token`; the cell after them is
outside the grid or holds something else. -/
theorem calculate_token_count_from_to_counts (g : Grid) (pos : position) (h v : Int)
    (token : Char) (hpos : valid_position pos = 1)
    (hh : h = -1 ∨ h = 0 ∨ h = 1) (hv : v = -1 ∨ v = 0 ∨ v = 1) (hd : ¬ (h = 0 ∧ v = 0)) :
    ∃ k : Nat,
      calculate_token_count_from_to g pos h v token = .ret (1 + k) ∧
      (∀ i : Nat, 1 ≤ i → i ≤ k →
        g.read (pos.column + i * h) (pos.row + i * v) = .ret token) ∧
      (∀ k1 : Nat,
        (∀ i : Nat, 1 ≤ i → i ≤ k1 →
          g.read (pos.column + i * h) (pos.row + i * v) = .ret token) → k1 ≤ k) ∧
      (valid_position { column := pos.column + ((k + 1 : Nat) : Int) * h,
                        row := pos.row + ((k + 1 : Nat) : Int) * v } = 0 ∨
       ∃ ch : Char,
        g.read (pos.column + ((k + 1 : Nat) : Int) * h) (pos.row + ((k + 1 : Nat) : Int) * v)
          = .ret ch ∧ ch ≠ token) := by
  have hd1 : h ≠ 0 ∨ v ≠ 0 := by
    by_contra hc
    push_neg at hc
    exact hd hc
  obtain ⟨k, h1, _, h3⟩ := calculate_token_count_from_to_ray g pos h v token hd1
  refine ⟨k, h1, h3.1, fun k1 hk1 => ray_le g token pos h v k k1 h3 hk1, ?_⟩
  have hcases := valid_position_cases ⟨pos.column + ((k + 1 : Nat) : Int) * h,
      pos.row + ((k + 1 : Nat) : Int) * v⟩
  rcases hcases with ⟨_, hin⟩ | ⟨h0, _⟩
  · right
    obtain ⟨c, r, _, _, hread⟩ := Grid.read_in_grid g _ _ hin
    simp only at hread
    refine ⟨g c r, hread, ?_⟩
    intro he
    apply h3.2
    unfold holds
    rw [hread, he]
  · left
    exact h0

/-- Witness of C15: the count from (5,0) towards (-1,1) on the grid
`last_cell_board`. -/
theorem calculate_token_count_from_to_counts_witness :
    valid_position ⟨5, 0⟩ = 1 ∧
    ∃ k : Nat,
      calculate_token_count_from_to last_cell_board ⟨5, 0⟩ (-1) 1 'X' = .ret (1 + k) ∧
      (∀ i : Nat, 1 ≤ i → i ≤ k →
        last_cell_board.read ((⟨5, 0⟩ : position).column + i * (-1))
          ((⟨5, 0⟩ : position).row + i * 1) = .ret 'X') ∧
      (∀ k1 : Nat,
        (∀ i : Nat, 1 ≤ i → i ≤ k1 →
          last_cell_board.read ((⟨5, 0⟩ : position).column + i * (-1))
            ((⟨5, 0⟩ : position).row + i * 1) = .ret 'X') → k1 ≤ k) ∧
      (valid_position { column := (⟨5, 0⟩ : position).column + ((k + 1 : Nat) : Int) * (-1),
                        row := (⟨5, 0⟩ : position).row + ((k + 1 : Nat) : Int) * 1 } = 0 ∨
       ∃ ch : Char,
        last_cell_board.read ((⟨5, 0⟩ : position).column + ((k + 1 : Nat) : Int) * (-1))
          ((⟨5, 0⟩ : position).row + ((k + 1 : Nat) : Int) * 1) = .ret ch ∧ ch ≠ 'X') :=
  ⟨by decide,
   calculate_token_count_from_to_counts last_cell_board ⟨5, 0⟩ (-1) 1 'X'
     (by decide) (by decide) (by decide) (by decide)⟩

/-- C20: at a valid position every directional count with a direction other
than `(0, 0)` lies in `[1, 7]`; each sum `count_A + count_B - 1` that
`calculate_token_count` forms in `unsigned` arithmetic equals the exact integer
`count_A + count_B - 1` and lies in `[1, 7]`, so nothing wraps modulo `2 ^ 32`;
and the result of `calculate_token_count` lies in `[1, 7]`. -/
theorem token_counts_in_range (g : Grid) (pos : position) (token : Char)
    (hpos : valid_position pos = 1) :
    (∀ h v : Int, ¬ (h = 0 ∧ v = 0) →
      ∃ n : Nat, calculate_token_count_from_to g pos h v token = .ret n ∧ 1 ≤ n ∧ n ≤ 7) ∧
    (∃ east west south_east north_west north_east south_west : Nat,
      calculate_token_count_from_to g pos 1 0 token = .ret east ∧
      calculate_token_count_from_to g pos (-1) 0 token = .ret west ∧
      calculate_token_count_from_to g pos 1 1 token = .ret south_east ∧
      calculate_token_count_from_to g pos (-1) (-1) token = .ret north_west ∧
      calculate_token_count_from_to g pos 1 (-1) token = .ret north_east ∧
      calculate_token_count_from_to g pos (-1) 1 token = .ret south_west ∧
      east + west < UINT_MOD ∧
      (add_sub_one east west : Int) = (east : Int) + (west : Int) - 1 ∧
      1 ≤ add_sub_one east west ∧ add_sub_one east west ≤ 7 ∧
      south_east + north_west < UINT_MOD ∧
      (add_sub_one south_east north_west : Int)
        = (south_east : Int) + (north_west : Int) - 1 ∧
      1 ≤ add_sub_one south_east north_west ∧ add_sub_one south_east north_west ≤ 7 ∧
      north_east + south_west < UINT_MOD ∧
      (add_sub_one north_east south_west : Int)
        = (north_east : Int) + (south_west : Int) - 1 ∧
      1 ≤ add_sub_one north_east south_west ∧ add_sub_one north_east south_west ≤ 7) ∧
    ∃ n : Nat, calculate_token_count g pos token = .ret n ∧ 1 ≤ n ∧ n ≤ 7 := by
  have hin := (valid_position_eq_one pos).mp hpos
  have hu : UINT_MOD = 4294967296 := by decide
  refine ⟨?_, ?_, ?_⟩
  · intro h v hd
    have hd1 : h ≠ 0 ∨ v ≠ 0 := by
      by_contra hc
      push_neg at hc
      exact hd hc
    obtain ⟨k, h1, h2, _⟩ := calculate_token_count_from_to_ray g pos h v token hd1
    refine ⟨1 + k, h1, by omega, ?_⟩
    have ha := cells_ahead_after h v pos hin
    have h7 : P4_COLUMNS = 7 := rfl
    have h6 : P4_ROWS = 6 := rfl
    unfold in_grid at hin
    rcases lt_trichotomy h 0 with hneg | hzero | hposi
    · have := ha.2.1 hneg; omega
    · rcases lt_trichotomy v 0 with vneg | vzero | vpos
      · have := ha.2.2.2 hzero vneg; omega
      · exact absurd ⟨hzero, vzero⟩ hd
      · have := ha.2.2.1 hzero vpos; omega
    · have := ha.1 hposi; omega
  · obtain ⟨kd, ke, kw, kse, knw, kne, ksw, _, _, _, _, _, _, _, _, e2, e3, e4, e5, e6, e7,
      _, b2, b3, b4, s1, s2, s3, _⟩ := calculate_token_count_rays g pos token hin
    refine ⟨_, _, _, _, _, _, e2, e3, e4, e5, e6, e7, by omega, ?_, by omega, by omega,
      by omega, ?_, by omega, by omega, by omega, ?_, by omega, by omega⟩
    · rw [s1]; push_cast; omega
    · rw [s2]; push_cast; omega
    · rw [s3]; push_cast; omega
  · obtain ⟨kd, ke, kw, kse, knw, kne, ksw, _, _, _, _, _, _, _, _, _, _, _, _, _, _,
      b1, b2, b3, b4, _, _, _, hcount⟩ := calculate_token_count_rays g pos token hin
    refine ⟨_, hcount, ?_, ?_⟩
    · exact le_trans (le_trans (le_trans (by omega : 1 ≤ 1 + kd) (Nat.le_max_left _ _))
        (Nat.le_max_left _ _)) (Nat.le_max_left _ _)
    · exact Nat.max_le.mpr ⟨Nat.max_le.mpr ⟨Nat.max_le.mpr ⟨by omega, by omega⟩, by omega⟩,
        by omega⟩

/-- Witness of C20: the position (5,0) of the grid `last_cell_board`. -/
theorem token_counts_in_range_witness :
    valid_position ⟨5, 0⟩ = 1 ∧
    ∃ n : Nat, calculate_token_count last_cell_board ⟨5, 0⟩ 'X' = .ret n ∧ 1 ≤ n ∧ n ≤ 7 :=
  ⟨by decide, (token_counts_in_range last_cell_board ⟨5, 0⟩ 'X' (by decide)).2.2⟩

/-! ## Run lengths -/

theorem mem_line_offsets (k : Int) : k ∈ line_offsets ↔ -6 ≤ k ∧ k ≤ 6 := by
  unfold line_offsets
  constructor
  · intro h
    simp only [List.mem_cons, List.mem_singleton, List.mem_nil_iff, or_false] at h
    omega
  · intro h
    simp only [List.mem_cons, List.mem_singleton, List.mem_nil_iff, or_false]
    omega

theorem line_offsets_count (a b : Nat) (ha : a ≤ 6) (hb : b ≤ 6) :
    (line_offsets.filter fun k => decide (-(b : Int) ≤ k ∧ k ≤ (a : Int))).length
      = a + b + 1 := by
  interval_cases a <;> interval_cases b <;> decide

theorem joined_iff (g : Grid) (token : Char) (pos : position) (h v h1 v1 : Int)
    (hh : h1 = -h) (hv : v1 = -v) (kp km : Nat)
    (hcell : holds g token pos.column pos.row)
    (hp : ray g token pos h v kp) (hm : ray g token pos h1 v1 km)
    (k : Int) (hk : k ∈ line_offsets) (hkp : kp ≤ 6) (hkm : km ≤ 6) :
    joined g token pos h v k ↔ (-(km : Int) ≤ k ∧ k ≤ (kp : Int)) := by
  have hk6 := (mem_line_offsets k).mp hk
  subst hh; subst hv
  constructor
  · intro hj
    constructor
    · by_contra hlt
      apply hm.2
      have := hj (-(((km + 1 : Nat)) : Int)) ((mem_line_offsets _).mpr (by omega))
        (Or.inr (by omega))
      have e1 : pos.column + ((km + 1 : Nat) : Int) * -h
          = pos.column + -(((km + 1 : Nat)) : Int) * h := by ring
      have e2 : pos.row + ((km + 1 : Nat) : Int) * -v
          = pos.row + -(((km + 1 : Nat)) : Int) * v := by ring
      rw [e1, e2]
      exact this
    · by_contra hlt
      apply hp.2
      exact hj (((kp + 1 : Nat)) : Int) ((mem_line_offsets _).mpr (by omega))
        (Or.inl (by omega))
  · rintro ⟨hlo, hhi⟩ i _ hrange
    rcases lt_trichotomy i 0 with hneg | hzero | hposi
    · have := hm.1 (-i).toNat (by omega) (by omega)
      have e1 : pos.column + ((-i).toNat : Int) * -h = pos.column + i * h := by
        have : ((-i).toNat : Int) = -i := by omega
        rw [this]; ring
      have e2 : pos.row + ((-i).toNat : Int) * -v = pos.row + i * v := by
        have : ((-i).toNat : Int) = -i := by omega
        rw [this]; ring
      rw [e1, e2] at this
      exact this
    · subst hzero
      simp only [zero_mul, add_zero]
      exact hcell
    · have := hp.1 i.toNat (by omega) (by omega)
      have e : (i.toNat : Int) = i := by omega
      rw [e] at this
      exact this

/-- The run length through a cell holding `token`, from the two counts of
consecutive cells on either side. -/
theorem spec_run_length_eq (g : Grid) (token : Char) (pos : position) (h v h1 v1 : Int)
    (hh : h1 = -h) (hv : v1 = -v) (kp km : Nat)
    (hcell : holds g token pos.column pos.row)
    (hp : ray g token pos h v kp) (hm : ray g token pos h1 v1 km)
    (hkp : kp ≤ 6) (hkm : km ≤ 6) :
    spec_run_length g token pos h v = kp + km + 1 := by
  unfold spec_run_length
  rw [← line_offsets_count kp km hkp hkm]
  congr 1
  apply List.filter_congr
  intro k hk
  have := joined_iff g token pos h v h1 v1 hh hv kp km hcell hp hm k hk hkp hkm
  by_cases hj : joined g token pos h v k
  · rw [decide_eq_true hj, decide_eq_true (this.mp hj)]
  · rw [decide_eq_false hj, decide_eq_false (fun hc => hj (this.mpr hc))]

theorem calculate_token_count_from_to_eq_one (g : Grid) (pos : position) (h v : Int)
    (token : Char) (hd : h ≠ 0 ∨ v ≠ 0)
    (hn : ¬ holds g token (pos.column + h) (pos.row + v)) :
    calculate_token_count_from_to g pos h v token = .ret 1 ∧ ray g token pos h v 0 := by
  obtain ⟨k, h1, _, h3⟩ := calculate_token_count_from_to_ray g pos h v token hd
  have hk : k = 0 := by
    by_contra hne
    apply hn
    have := h3.1 1 (le_refl _) (by omega)
    simp only [Nat.cast_one, one_mul] at this
    exact this
  subst hk
  exact ⟨h1, h3⟩

/-- At a cell that holds `token` and has no `token` cell directly above it,
`calculate_token_count` is the maximum of the four run lengths. -/
theorem calculate_token_count_spec (g : Grid) (pos : position) (token : Char)
    (hin : in_grid pos.column pos.row) (hcell : holds g token pos.column pos.row)
    (habove : ¬ holds g token pos.column (pos.row - 1)) :
    calculate_token_count g pos token = .ret (spec_max_run g token pos) := by
  obtain ⟨kd, ke, kw, kse, knw, kne, ksw, r1, r2, r3, r4, r5, r6, r7, _, _, _, _, _, _, _,
    b1, b2, b3, b4, _, _, _, hcount⟩ := calculate_token_count_rays g pos token hin
  have hup := (calculate_token_count_from_to_eq_one g pos 0 (-1) token (by decide)
    (by simp only [add_zero]; exact habove)).2
  have ev := spec_run_length_eq g token pos 0 1 0 (-1) (by decide) rfl kd 0 hcell r1 hup
    (by omega) (by omega)
  have eh := spec_run_length_eq g token pos 1 0 (-1) 0 rfl (by decide) ke kw hcell r2 r3
    (by omega) (by omega)
  have ed := spec_run_length_eq g token pos 1 1 (-1) (-1) rfl rfl kse knw hcell r4 r5
    (by omega) (by omega)
  have ea := spec_run_length_eq g token pos 1 (-1) (-1) 1 rfl (by decide) kne ksw hcell r6 r7
    (by omega) (by omega)
  have e : kd + 0 + 1 = 1 + kd := by omega
  unfold spec_max_run
  rw [ev, eh, ed, ea, hcount, e]

/-- C14: at a valid position whose cell holds `token` and whose upper
neighbour is outside the grid or holds something else,
`calculate_token_count` returns the maximum over the four axes of the run length
through the position, the run length on an axis being the number of cells of the
maximal contiguous in-grid segment of `token` cells on that line that contains
the position. -/
theorem calculate_token_count_eq_max_run (g : Grid) (pos : position) (token : Char)
    (hpos : valid_position pos = 1)
    (hcell : g.read pos.column pos.row = .ret token)
    (habove : g.read pos.column (pos.row - 1) ≠ .ret token) :
    calculate_token_count g pos token
      = .ret (Nat.max (Nat.max (Nat.max (spec_run_length g token pos 0 1)
          (spec_run_length g token pos 1 0)) (spec_run_length g token pos 1 1))
          (spec_run_length g token pos 1 (-1))) :=
  calculate_token_count_spec g pos token ((valid_position_eq_one pos).mp hpos) hcell habove

/-- Witness of C14: the position (5,0) after 'X' has been put there on the
grid `last_cell_board`. -/
theorem calculate_token_count_eq_max_run_witness :
    (valid_position ⟨5, 0⟩ = 1 ∧
     (last_cell_board.set 5 0 'X').read (⟨5, 0⟩ : position).column (⟨5, 0⟩ : position).row
       = .ret 'X' ∧
     (last_cell_board.set 5 0 'X').read (⟨5, 0⟩ : position).column
       ((⟨5, 0⟩ : position).row - 1) ≠ .ret 'X') ∧
    calculate_token_count (last_cell_board.set 5 0 'X') ⟨5, 0⟩ 'X'
      = .ret (Nat.max (Nat.max (Nat.max
          (spec_run_length (last_cell_board.set 5 0 'X') 'X' ⟨5, 0⟩ 0 1)
          (spec_run_length (last_cell_board.set 5 0 'X') 'X' ⟨5, 0⟩ 1 0))
          (spec_run_length (last_cell_board.set 5 0 'X') 'X' ⟨5, 0⟩ 1 1))
          (spec_run_length (last_cell_board.set 5 0 'X') 'X' ⟨5, 0⟩ 1 (-1))) :=
  ⟨⟨by decide, by decide, by decide⟩,
   calculate_token_count_eq_max_run (last_cell_board.set 5 0 'X') ⟨5, 0⟩ 'X'
     (by decide) (by decide) (by decide)⟩

/-! ## The cell above a token just placed -/

theorem above_not_token (g : Grid) (hg : gravity g) (c : Fin P4_COLUMNS) (r : Fin P4_ROWS)
    (hempty : g c r = ' ') (token : Char) (ht : token ≠ ' ') :
    ¬ holds (g.set c r token) token (c.val : Int) ((r.val : Int) - 1) := by
  intro hh
  have hin := holds_in_grid _ _ _ _ hh
  have h6 : P4_ROWS = 6 := rfl
  have hr := r.isLt
  unfold in_grid at hin
  have hr1 : 1 ≤ r.val := by omega
  have e : ((r.val : Int) - 1) = (((⟨r.val - 1, by omega⟩ : Fin P4_ROWS).val : Nat) : Int) := by
    simp only
    omega
  unfold holds at hh
  rw [e, Grid.read_fin] at hh
  have hne : ¬ (c = c ∧ (⟨r.val - 1, by omega⟩ : Fin P4_ROWS) = r) := by
    rintro ⟨_, h2⟩
    have := congrArg Fin.val h2
    simp only at this
    omega
  rw [Grid.set_other g c c r _ token hne] at hh
  have hocc : occupied g c ⟨r.val - 1, by omega⟩ := by
    unfold occupied
    rw [Exec.ret.inj hh]
    exact ht
  have hlt : (⟨r.val - 1, by omega⟩ : Fin P4_ROWS) < r := by
    apply Fin.lt_def.mpr
    simp only
    omega
  exact hg c _ r hlt hocc hempty

theorem calculate_token_count_two_sided_eq (g : Grid) (pos : position) (token : Char)
    (hin : in_grid pos.column pos.row)
    (hup : calculate_token_count_from_to g pos 0 (-1) token = .ret 1) :
    calculate_token_count_two_sided g pos token = calculate_token_count g pos token := by
  obtain ⟨kd, ke, kw, kse, knw, kne, ksw, _, _, _, _, _, _, _, e1, e2, e3, e4, e5, e6, e7,
    b1, _, _, _, _, _, _, _⟩ := calculate_token_count_rays g pos token hin
  have hu : UINT_MOD = 4294967296 := by decide
  have hv : add_sub_one (1 + kd) 1 = 1 + kd := by
    rw [add_sub_one_eq _ _ (by omega) (by omega)]; omega
  unfold calculate_token_count_two_sided calculate_token_count
  rw [e1, e2, e3, e4, e5, e6, e7, hup]
  simp only [Exec.bind_ret, hv]

set_option linter.unusedVariables false in
/-- C17: in a reachable state in which the loop is running, after the active
player's token has been written at the position `calculate_position` returns for
an accepted column, the upward count `calculate_token_count_from_to(pos, 0, -1,
token)` is 1; so forming the vertical term as downward count + upward count - 1
gives the result `calculate_token_count` gives with the downward count alone. -/
theorem upward_count_is_one (s : Game) (pos0 : position) (move : Int)
    (hs : Reachable s) (hp : s.phase = .playing)
    (hv : valid_move s.grid move = .ret 1) :
    ∃ (pos : position) (g1 : Grid),
      calculate_position s.grid (move - 1) pos0 = .ret pos ∧
      s.grid.write pos.column pos.row s.token = .ret g1 ∧
      calculate_token_count_from_to g1 pos 0 (-1) s.token = .ret 1 ∧
      (∀ down : Nat, calculate_token_count_from_to g1 pos 0 1 s.token = .ret down →
        add_sub_one down 1 = down) ∧
      calculate_token_count_two_sided g1 pos s.token = calculate_token_count g1 pos s.token := by
  obtain ⟨c, r, status, _, hpos, hempty, _, hw, _, _, _⟩ := main_turn_accepted pos0 s move hv
  obtain ⟨hg, htok⟩ := reachable_invariant s hs
  have ht : s.token ≠ ' ' := by
    rcases htok with h | h <;> rw [h] <;> decide
  have habove := above_not_token s.grid hg c r hempty s.token ht
  have hin : in_grid (c.val : Int) (r.val : Int) := by
    have := c.isLt; have := r.isLt
    refine ⟨by omega, by omega, by omega, by omega⟩
  have hup := (calculate_token_count_from_to_eq_one (s.grid.set c r s.token)
    { column := c.val, row := r.val } 0 (-1) s.token (by decide)
    (by simp only [add_zero]; exact habove)).1
  refine ⟨_, _, hpos, hw, hup, ?_, calculate_token_count_two_sided_eq _ _ _ hin hup⟩
  intro down hdown
  obtain ⟨kd, _, _, _, _, _, _, _, _, _, _, _, _, _, e1, _, _, _, _, _, _,
    b1, _, _, _, _, _, _, _⟩ :=
    calculate_token_count_rays (s.grid.set c r s.token) { column := c.val, row := r.val }
      s.token hin
  rw [e1] at hdown
  have := Exec.ret.inj hdown
  subst this
  have hu : UINT_MOD = 4294967296 := by decide
  rw [add_sub_one_eq _ _ (by omega) (by omega)]
  omega

/-- Witness of C17: 'X' playing column 6 on the grid `last_cell_board`. -/
theorem upward_count_is_one_witness :
    (Reachable (game_after last_cell_moves) ∧
     (game_after last_cell_moves).phase = .playing ∧
     valid_move (game_after last_cell_moves).grid 6 = .ret 1) ∧
    ∃ (pos : position) (g1 : Grid),
      calculate_position (game_after last_cell_moves).grid (6 - 1) ⟨0, 0⟩ = .ret pos ∧
      (game_after last_cell_moves).grid.write pos.column pos.row
        (game_after last_cell_moves).token = .ret g1 ∧
      calculate_token_count_from_to g1 pos 0 (-1) (game_after last_cell_moves).token
        = .ret 1 ∧
      (∀ down : Nat,
        calculate_token_count_from_to g1 pos 0 1 (game_after last_cell_moves).token
          = .ret down → add_sub_one down 1 = down) ∧
      calculate_token_count_two_sided g1 pos (game_after last_cell_moves).token
        = calculate_token_count g1 pos (game_after last_cell_moves).token :=
  ⟨⟨reachable_game_after _ (by decide), by decide, by decide⟩,
   upward_count_is_one (game_after last_cell_moves) ⟨0, 0⟩ 6
     (reachable_game_after _ (by decide)) (by decide) (by decide)⟩

/-! ## Four in a line -/

theorem Grid.read_set_other (g : Grid) (c : Fin P4_COLUMNS) (r : Fin P4_ROWS) (ch : Char)
    (col row : Int) (h : ¬ (col = (c.val : Int) ∧ row = (r.val : Int))) :
    (g.set c r ch).read col row = g.read col row := by
  by_cases hin : in_grid col row
  · obtain ⟨c1, r1, hc1, hr1, hread⟩ := Grid.read_in_grid (g.set c r ch) col row hin
    obtain ⟨c2, r2, hc2, hr2, hread2⟩ := Grid.read_in_grid g col row hin
    have ec : c2 = c1 := Fin.ext (by omega)
    have er : r2 = r1 := Fin.ext (by omega)
    subst ec; subst er
    rw [hread, hread2, Grid.set_other]
    rintro ⟨rfl, rfl⟩
    exact h ⟨hc1.symm, hr1.symm⟩
  · rw [Grid.read_outside _ _ _ hin, Grid.read_outside _ _ _ hin]

theorem four_rays (g : Grid) (token : Char) (pos : position) (h v h1 v1 : Int)
    (hh : h1 = -h) (hv : v1 = -v) (c0 r0 : Int) (j : Nat) (hj : j < 4)
    (hc : c0 + j * h = pos.column) (hr : r0 + j * v = pos.row)
    (hfour : four_from g token c0 r0 h v) (kp km : Nat)
    (hp : ray g token pos h v kp) (hm : ray g token pos h1 v1 km) :
    3 - j ≤ kp ∧ j ≤ km := by
  subst hh; subst hv
  constructor
  · apply ray_le g token pos h v kp (3 - j) hp
    intro i h1 hi
    have := hfour (j + i) (by omega)
    have e1 : c0 + ((j + i : Nat) : Int) * h = pos.column + (i : Int) * h := by
      rw [← hc]; push_cast; ring
    have e2 : r0 + ((j + i : Nat) : Int) * v = pos.row + (i : Int) * v := by
      rw [← hr]; push_cast; ring
    rw [e1, e2] at this
    exact this
  · apply ray_le g token pos (-h) (-v) km j hm
    intro i h1 hi
    have := hfour (j - i) (by omega)
    have e0 : ((j - i : Nat) : Int) = (j : Int) - (i : Int) := by omega
    have e1 : c0 + ((j - i : Nat) : Int) * h = pos.column + (i : Int) * -h := by
      rw [← hc, e0]; ring
    have e2 : r0 + ((j - i : Nat) : Int) * v = pos.row + (i : Int) * -v := by
      rw [← hr, e0]; ring
    rw [e1, e2] at this
    exact this

/-- Four cells in a line that hold `token` and pass through a cell with no
`token` cell directly above it make `calculate_token_count` at least 4 there. -/
theorem calculate_token_count_ge_four (g : Grid) (pos : position) (token : Char)
    (hin : in_grid pos.column pos.row)
    (habove : ¬ holds g token pos.column (pos.row - 1))
    (c0 r0 : Int) (d : Int × Int) (hd : d ∈ axes) (j : Nat) (hj : j < 4)
    (hc : c0 + j * d.1 = pos.column) (hr : r0 + j * d.2 = pos.row)
    (hfour : four_from g token c0 r0 d.1 d.2) :
    ∃ n : Nat, calculate_token_count g pos token = .ret n ∧ 4 ≤ n := by
  obtain ⟨kd, ke, kw, kse, knw, kne, ksw, r1, r2, r3, r4, r5, r6, r7, _, _, _, _, _, _, _,
    _, _, _, _, _, _, _, hcount⟩ := calculate_token_count_rays g pos token hin
  have hup := (calculate_token_count_from_to_eq_one g pos 0 (-1) token (by decide)
    (by simp only [add_zero]; exact habove)).2
  refine ⟨_, hcount, ?_⟩
  unfold axes at hd
  simp only [List.mem_cons, List.mem_singleton, List.mem_nil_iff, or_false] at hd
  rcases hd with rfl | rfl | rfl | rfl
  · have := four_rays g token pos 0 1 0 (-1) (by decide) rfl c0 r0 j hj hc hr hfour kd 0 r1 hup
    exact le_trans (le_trans (le_trans (by omega : 4 ≤ 1 + kd) (Nat.le_max_left _ _))
      (Nat.le_max_left _ _)) (Nat.le_max_left _ _)
  · have := four_rays g token pos 1 0 (-1) 0 rfl (by decide) c0 r0 j hj hc hr hfour ke kw r2 r3
    exact le_trans (le_trans (le_trans (by omega : 4 ≤ ke + kw + 1) (Nat.le_max_right _ _))
      (Nat.le_max_left _ _)) (Nat.le_max_left _ _)
  · have := four_rays g token pos 1 1 (-1) (-1) rfl rfl c0 r0 j hj hc hr hfour kse knw r4 r5
    exact le_trans (le_trans (by omega : 4 ≤ kse + knw + 1) (Nat.le_max_right _ _))
      (Nat.le_max_left _ _)
  · have := four_rays g token pos 1 (-1) (-1) 1 rfl (by decide) c0 r0 j hj hc hr hfour
      kne ksw r6 r7
    exact le_trans (by omega : 4 ≤ kne + ksw + 1) (Nat.le_max_right _ _)

theorem has_four_empty_grid (t : Char) (ht : t ≠ ' ') : ¬ has_four empty_grid t := by
  rintro ⟨p, hp, d, _, hfour⟩
  have hp1 := (mem_grid_indices p).mp hp
  have := hfour 0 (by decide)
  simp only [Nat.cast_zero, zero_mul, add_zero] at this
  unfold holds at this
  rw [Grid.read_nat empty_grid p.1 p.2 hp1.1 hp1.2] at this
  exact ht (Exec.ret.inj this).symm

/-- After a token is put on the lowest empty cell of a column of a grid with
gravity and without four in a line, either there is still no four in a line or
`calculate_token_count` at the new cell is at least 4. -/
theorem has_four_after_set (g : Grid) (hg : gravity g) (c : Fin P4_COLUMNS)
    (r : Fin P4_ROWS) (hempty : g c r = ' ') (token : Char) (ht : token ≠ ' ')
    (hno : ∀ t : Char, t ≠ ' ' → ¬ has_four g t)
    (t : Char) (ht1 : t ≠ ' ') (hfour : has_four (g.set c r token) t) :
    ∃ n : Nat, calculate_token_count (g.set c r token) { column := c.val, row := r.val } token
      = .ret n ∧ 4 ≤ n := by
  obtain ⟨p, hp, d, hd, h4⟩ := hfour
  have hin : in_grid (c.val : Int) (r.val : Int) := by
    have := c.isLt; have := r.isLt
    refine ⟨by omega, by omega, by omega, by omega⟩
  by_cases hthrough : ∃ j : Nat, j < 4 ∧ (p.1 : Int) + j * d.1 = (c.val : Int) ∧
      (p.2 : Int) + j * d.2 = (r.val : Int)
  · obtain ⟨j, hj, hc, hr⟩ := hthrough
    have hcell := h4 j hj
    rw [hc, hr] at hcell
    unfold holds at hcell
    rw [Grid.read_fin, Grid.set_same] at hcell
    have et : t = token := (Exec.ret.inj hcell).symm
    subst et
    exact calculate_token_count_ge_four (g.set c r t) { column := c.val, row := r.val } t hin
      (above_not_token g hg c r hempty t ht) (p.1 : Int) (p.2 : Int) d hd j hj hc hr h4
  · exfalso
    apply hno t ht1
    refine ⟨p, hp, d, hd, ?_⟩
    intro i hi
    have := h4 i hi
    unfold holds at this ⊢
    rw [Grid.read_set_other] at this
    · exact this
    · rintro ⟨hc, hr⟩
      exact hthrough ⟨i, hi, hc, hr⟩

theorem no_four_invariant (s : Game) (h : Reachable s) :
    s.phase = .playing → ∀ t : Char, t ≠ ' ' → ¬ has_four s.grid t := by
  induction h with
  | start s hs =>
    rw [main_start_eq] at hs
    have e := Exec.ret.inj hs
    subst e
    intro _ t ht
    exact has_four_empty_grid t ht
  | turn s s1 pos0 inp hreach hplaying ht ih =>
    cases inp with
    | error =>
      have e : s1 = { s with phase := .exited EXIT_FAILURE } := (Exec.ret.inj ht).symm
      subst e
      intro hp
      cases hp
    | quit =>
      have e : s1 = { s with phase := .exited 0 } := (Exec.ret.inj ht).symm
      subst e
      intro hp
      cases hp
    | new_input =>
      have e : s1 = s := (Exec.ret.inj ht).symm
      subst e
      exact ih
    | play move =>
      rcases valid_move_cases s.grid move with h1 | h0
      · obtain ⟨c, r, status, _, _, hempty, _, _, hstatus, _, hturn⟩ :=
          main_turn_accepted pos0 s move h1
        rw [hturn] at ht
        have e := (Exec.ret.inj ht).symm
        subst e
        obtain ⟨hg, htok⟩ := reachable_invariant s hreach
        have htoken : s.token ≠ ' ' := by
          rcases htok with h | h <;> rw [h] <;> decide
        unfold next_game
        by_cases hs : status ≠ STATUS_OK
        · rw [if_pos hs]
          intro hp
          cases hp
        · rw [if_neg hs]
          have hok : status = STATUS_OK := not_not.mp hs
          subst hok
          intro _ t ht1 hfour
          obtain ⟨n, hn, h4⟩ := has_four_after_set s.grid hg c r hempty s.token htoken
            (ih hplaying) t ht1 hfour
          rcases game_status_cases (s.grid.set c r s.token) { column := c.val, row := r.val }
            s.token with ⟨_, hdraw⟩ | ⟨_, m, hm, ⟨_, hwin⟩ | ⟨hlt, _⟩⟩
          · rw [hdraw] at hstatus
            cases hstatus
          · rw [hwin] at hstatus
            cases hstatus
          · rw [hn] at hm
            have := Exec.ret.inj hm
            omega
      · rw [main_turn_rejected pos0 s move h0] at ht
        have e := (Exec.ret.inj ht).symm
        subst e
        exact ih

/-- C18: in every reachable state in which the loop is still running, so that
`game_status` has returned `STATUS_OK` after every move played, no four
consecutive cells in a line hold the same token, 'O' or 'X' or any other
non-blank character; and when the next accepted move makes four in a line
anywhere on the grid, `calculate_token_count` at the cell just written is at
least 4: the lines through that cell miss nothing. -/
theorem no_four_while_playing (s : Game) (hs : Reachable s) (hp : s.phase = .playing) :
    ¬ has_four s.grid PLAYER1_TOKEN ∧ ¬ has_four s.grid PLAYER2_TOKEN ∧
    (∀ t : Char, t ≠ ' ' → ¬ has_four s.grid t) ∧
    ∀ (pos0 : position) (move : Int), valid_move s.grid move = .ret 1 →
      ∃ (pos : position) (g1 : Grid),
        calculate_position s.grid (move - 1) pos0 = .ret pos ∧
        s.grid.write pos.column pos.row s.token = .ret g1 ∧
        ∀ t : Char, t ≠ ' ' → has_four g1 t →
          ∃ n : Nat, calculate_token_count g1 pos s.token = .ret n ∧ 4 ≤ n := by
  have hno := no_four_invariant s hs hp
  refine ⟨hno _ (by decide), hno _ (by decide), hno, ?_⟩
  intro pos0 move hv
  obtain ⟨c, r, status, _, hpos, hempty, _, hw, _, _, _⟩ := main_turn_accepted pos0 s move hv
  obtain ⟨hg, htok⟩ := reachable_invariant s hs
  have htoken : s.token ≠ ' ' := by
    rcases htok with h | h <;> rw [h] <;> decide
  refine ⟨_, _, hpos, hw, ?_⟩
  intro t ht hfour
  exact has_four_after_set s.grid hg c r hempty s.token htoken hno t ht hfour

set_option maxRecDepth 100000 in
/-- Witness of C18: the state after the 41 moves `last_cell_moves`. -/
theorem no_four_while_playing_witness :
    (Reachable (game_after last_cell_moves) ∧
     (game_after last_cell_moves).phase = .playing) ∧
    ¬ has_four (game_after last_cell_moves).grid PLAYER1_TOKEN ∧
    ¬ has_four (game_after last_cell_moves).grid PLAYER2_TOKEN :=
  ⟨⟨reachable_game_after _ (by decide), by decide⟩,
   (no_four_while_playing (game_after last_cell_moves)
      (reachable_game_after _ (by decide)) (by decide)).1,
   (no_four_while_playing (game_after last_cell_moves)
      (reachable_game_after _ (by decide)) (by decide)).2.1⟩

/-! ## Counting tokens -/

theorem count_cells_set_new (g : Grid) (c : Fin P4_COLUMNS) (r : Fin P4_ROWS) (ch : Char)
    (h : g c r ≠ ch) : count_cells (g.set c r ch) ch = count_cells g ch + 1 := by
  unfold count_cells
  have e : (Finset.univ.filter fun p : Fin P4_COLUMNS × Fin P4_ROWS => g.set c r ch p.1 p.2 = ch)
      = insert (c, r)
          (Finset.univ.filter fun p : Fin P4_COLUMNS × Fin P4_ROWS => g p.1 p.2 = ch) := by
    ext p
    obtain ⟨c1, r1⟩ := p
    simp only [Finset.mem_filter, Finset.mem_univ, true_and, Finset.mem_insert, Prod.mk.injEq]
    by_cases hp : c1 = c ∧ r1 = r
    · obtain ⟨rfl, rfl⟩ := hp
      simp [Grid.set_same]
    · rw [Grid.set_other g c c1 r r1 ch hp]
      simp [hp]
  rw [e, Finset.card_insert_of_not_mem]
  simp only [Finset.mem_filter, Finset.mem_univ, true_and]
  exact h

theorem count_cells_set_other (g : Grid) (c : Fin P4_COLUMNS) (r : Fin P4_ROWS) (ch t : Char)
    (h : g c r ≠ t) (hch : ch ≠ t) : count_cells (g.set c r ch) t = count_cells g t := by
  unfold count_cells
  congr 1
  ext p
  obtain ⟨c1, r1⟩ := p
  simp only [Finset.mem_filter, Finset.mem_univ, true_and]
  by_cases hp : c1 = c ∧ r1 = r
  · obtain ⟨rfl, rfl⟩ := hp
    rw [Grid.set_same]
    exact ⟨fun hc => absurd hc hch, fun hc => absurd hc h⟩
  · rw [Grid.set_other g c c1 r r1 ch hp]

theorem count_cells_set_old (g : Grid) (c : Fin P4_COLUMNS) (r : Fin P4_ROWS) (ch t : Char)
    (h : g c r = t) (hch : ch ≠ t) : count_cells (g.set c r ch) t + 1 = count_cells g t := by
  unfold count_cells
  have e : (Finset.univ.filter fun p : Fin P4_COLUMNS × Fin P4_ROWS => g p.1 p.2 = t)
      = insert (c, r)
          (Finset.univ.filter fun p : Fin P4_COLUMNS × Fin P4_ROWS =>
            g.set c r ch p.1 p.2 = t) := by
    ext p
    obtain ⟨c1, r1⟩ := p
    simp only [Finset.mem_filter, Finset.mem_univ, true_and, Finset.mem_insert, Prod.mk.injEq]
    by_cases hp : c1 = c ∧ r1 = r
    · obtain ⟨rfl, rfl⟩ := hp
      simp [h]
    · rw [Grid.set_other g c c1 r r1 ch hp]
      simp [hp]
  rw [e, Finset.card_insert_of_not_mem]
  simp only [Finset.mem_filter, Finset.mem_univ, true_and]
  rw [Grid.set_same]
  exact hch

theorem count_cells_eq_zero (g : Grid) (t : Char) :
    count_cells g t = 0 ↔ ∀ c r, g c r ≠ t := by
  unfold count_cells
  rw [Finset.card_eq_zero, Finset.filter_eq_empty_iff]
  constructor
  · intro h c r
    exact h (Finset.mem_univ (c, r))
  · intro h p _
    exact h p.1 p.2

theorem count_cells_empty_grid :
    count_cells empty_grid ' ' = 42 ∧ ∀ t : Char, t ≠ ' ' → count_cells empty_grid t = 0 := by
  constructor
  · unfold count_cells
    have e : (Finset.univ.filter fun p : Fin P4_COLUMNS × Fin P4_ROWS =>
        empty_grid p.1 p.2 = ' ') = Finset.univ :=
      Finset.filter_true_of_mem (fun _ _ => rfl)
    rw [e]
    rfl
  · intro t ht
    rw [count_cells_eq_zero]
    intro c r h
    exact ht h.symm

theorem is_grid_full_iff_count (g : Grid) : is_grid_full g = .ret 1 ↔ count_cells g ' ' = 0 := by
  rw [count_cells_eq_zero]
  rcases is_grid_full_cases g with ⟨h1, h2⟩ | ⟨h1, c, r, h2⟩
  · exact ⟨fun _ => h2, fun _ => h1⟩
  · constructor
    · intro h; rw [h1] at h; cases h
    · intro h; exact absurd h2 (h c r)

theorem reachable_of_reachable_after (n : Nat) (s : Game) (h : ReachableAfter n s) :
    Reachable s := by
  induction h with
  | start s hs => exact Reachable.start s hs
  | idle n s s1 pos0 inp _ hp _ ht ih => exact Reachable.turn s s1 pos0 inp ih hp ht
  | played n s s1 pos0 inp _ hp _ ht ih => exact Reachable.turn s s1 pos0 inp ih hp ht

theorem reachable_after_of_reachable (s : Game) (h : Reachable s) :
    ∃ n : Nat, ReachableAfter n s := by
  induction h with
  | start s hs => exact ⟨0, ReachableAfter.start s hs⟩
  | turn s s1 pos0 inp _ hp ht ih =>
    obtain ⟨n, hn⟩ := ih
    by_cases ha : accepted s inp
    · exact ⟨n + 1, ReachableAfter.played n s s1 pos0 inp hn hp ha ht⟩
    · exact ⟨n, ReachableAfter.idle n s s1 pos0 inp hn hp ha ht⟩

theorem main_turn_idle (pos0 : position) (s s1 : Game) (inp : Input)
    (ha : ¬ accepted s inp) (ht : main_turn pos0 s inp = .ret s1) :
    s1.grid = s.grid ∧ s1.token = s.token ∧ (s1.phase = .playing → s.phase = .playing) := by
  cases inp with
  | error =>
    have e : s1 = { s with phase := .exited EXIT_FAILURE } := (Exec.ret.inj ht).symm
    subst e
    exact ⟨rfl, rfl, fun h => by cases h⟩
  | quit =>
    have e : s1 = { s with phase := .exited 0 } := (Exec.ret.inj ht).symm
    subst e
    exact ⟨rfl, rfl, fun h => by cases h⟩
  | new_input =>
    have e : s1 = s := (Exec.ret.inj ht).symm
    subst e
    exact ⟨rfl, rfl, fun h => h⟩
  | play move =>
    rcases valid_move_cases s.grid move with h1 | h0
    · exact absurd ⟨move, rfl, h1⟩ ha
    · rw [main_turn_rejected pos0 s move h0] at ht
      have e := (Exec.ret.inj ht).symm
      subst e
      exact ⟨rfl, rfl, fun h => h⟩

theorem reachable_after_invariant (n : Nat) (s : Game) (h : ReachableAfter n s) :
    count_cells s.grid PLAYER1_TOKEN = (n + 1) / 2 ∧
    count_cells s.grid PLAYER2_TOKEN = n / 2 ∧
    count_cells s.grid ' ' + n = 42 ∧
    (s.phase = .playing → (s.token = PLAYER1_TOKEN ↔ n % 2 = 0) ∧ n < 42) ∧
    (n = 42 → s.phase = .ended STATUS_DRAW) := by
  induction h with
  | start s hs =>
    rw [main_start_eq] at hs
    have e := Exec.ret.inj hs
    subst e
    refine ⟨count_cells_empty_grid.2 _ (by decide), count_cells_empty_grid.2 _ (by decide),
      by rw [show start_game.grid = empty_grid from rfl, count_cells_empty_grid.1], ?_, ?_⟩
    · intro _
      exact ⟨⟨fun _ => rfl, fun _ => rfl⟩, by decide⟩
    · intro h
      cases h
  | idle n s s1 pos0 inp _ hp ha ht ih =>
    obtain ⟨hg, htok, hph⟩ := main_turn_idle pos0 s s1 inp ha ht
    rw [hg, htok]
    refine ⟨ih.1, ih.2.1, ih.2.2.1, fun _ => ih.2.2.2.1 hp, ?_⟩
    intro h42
    have := (ih.2.2.2.1 hp).2
    omega
  | played n s s1 pos0 inp hreach hp ha ht ih =>
    obtain ⟨move, rfl, hvalid⟩ := ha
    obtain ⟨c, r, status, _, _, hempty, _, _, hstatus, _, hturn⟩ :=
      main_turn_accepted pos0 s move hvalid
    rw [hturn] at ht
    have e := (Exec.ret.inj ht).symm
    subst e
    obtain ⟨hO, hX, hblank, hplay, _⟩ := ih
    obtain ⟨hparity, hlt⟩ := hplay hp
    have htok := (reachable_invariant s (reachable_of_reachable_after n s hreach)).2
    have hgrid : (next_game s (s.grid.set c r s.token) status).grid
        = s.grid.set c r s.token := by
      unfold next_game
      by_cases hs : status ≠ STATUS_OK
      · rw [if_pos hs]
      · rw [if_neg hs]
    have hb : count_cells (s.grid.set c r s.token) ' ' + 1 = count_cells s.grid ' ' := by
      apply count_cells_set_old _ _ _ _ _ hempty
      rcases htok with h | h <;> rw [h] <;> decide
    have hcounts : count_cells (s.grid.set c r s.token) PLAYER1_TOKEN = (n + 1 + 1) / 2 ∧
        count_cells (s.grid.set c r s.token) PLAYER2_TOKEN = (n + 1) / 2 := by
      rcases htok with h | h
      · have hev := hparity.mp h
        rw [h]
        rw [count_cells_set_new _ _ _ _ (by rw [hempty]; decide),
          count_cells_set_other _ _ _ _ _ (by rw [hempty]; decide) (by decide)]
        omega
      · have hodd : n % 2 ≠ 0 := by
          intro hev
          have := hparity.mpr hev
          rw [h] at this
          exact absurd this (by decide)
        rw [h]
        rw [count_cells_set_new _ _ _ _ (by rw [hempty]; decide),
          count_cells_set_other _ _ _ _ _ (by rw [hempty]; decide) (by decide)]
        omega
    rw [hgrid]
    refine ⟨hcounts.1, hcounts.2, by omega, ?_, ?_⟩
    · intro hplaying
      have hok : status = STATUS_OK := by
        by_contra hne
        unfold next_game at hplaying
        rw [if_pos hne] at hplaying
        cases hplaying
      subst hok
      have hnotfull : count_cells (s.grid.set c r s.token) ' ' ≠ 0 := by
        intro hz
        have hfull := (is_grid_full_iff_count _).mpr hz
        rcases game_status_cases (s.grid.set c r s.token) { column := c.val, row := r.val }
          s.token with ⟨_, hdraw⟩ | ⟨h0, _⟩
        · rw [hdraw] at hstatus
          cases hstatus
        · rw [hfull] at h0
          cases h0
      refine ⟨?_, by omega⟩
      unfold next_game
      rw [if_neg (by decide)]
      simp only
      rcases htok with h | h
      · have hev := hparity.mp h
        rw [h]
        constructor
        · intro hc; exact absurd hc (by decide)
        · intro hc; omega
      · have hodd : n % 2 ≠ 0 := by
          intro hev
          have := hparity.mpr hev
          rw [h] at this
          exact absurd this (by decide)
        rw [h]
        constructor
        · intro _; omega
        · intro _; rfl
    · intro h42
      have hz : count_cells (s.grid.set c r s.token) ' ' = 0 := by omega
      have hfull := (is_grid_full_iff_count _).mpr hz
      rcases game_status_cases (s.grid.set c r s.token) { column := c.val, row := r.val }
        s.token with ⟨_, hdraw⟩ | ⟨h0, _⟩
      · rw [hdraw] at hstatus
        have := Exec.ret.inj hstatus
        subst this
        rfl
      · rw [hfull] at h0
        cases h0

/-! ## Claims on reachable states: token counts -/

/-- C19: in a state reached after `n` successful moves the grid holds exactly
`n` tokens, `ceil(n/2)` of them 'O' and `floor(n/2)` of them 'X', and `42 - n`
blanks; while the loop is running the active player is player 1 exactly when `n`
is even; `n <= 42`, `is_grid_full` returns 1 exactly when `n = 42`, the loop is
not running any more once `n = 42`, the status then being `STATUS_DRAW`. -/
theorem tokens_after_moves (n : Nat) (s : Game) (h : ReachableAfter n s) :
    count_cells s.grid PLAYER1_TOKEN + count_cells s.grid PLAYER2_TOKEN = n ∧
    count_cells s.grid PLAYER1_TOKEN = (n + 1) / 2 ∧
    count_cells s.grid PLAYER2_TOKEN = n / 2 ∧
    count_cells s.grid ' ' + n = 42 ∧
    (s.phase = .playing → (s.token = PLAYER1_TOKEN ↔ n % 2 = 0)) ∧
    n ≤ 42 ∧
    (is_grid_full s.grid = .ret 1 ↔ n = 42) ∧
    (s.phase = .playing → n < 42) ∧
    (n = 42 → s.phase = .ended STATUS_DRAW) := by
  obtain ⟨hO, hX, hblank, hplay, hend⟩ := reachable_after_invariant n s h
  refine ⟨by omega, hO, hX, hblank, fun hp => (hplay hp).1, by omega, ?_,
    fun hp => (hplay hp).2, hend⟩
  rw [is_grid_full_iff_count]
  omega

/-- Witness of C19: the state after column 4 has been played at the start of
the game. -/
theorem tokens_after_moves_witness :
    ReachableAfter 1 ((main_turn ⟨0, 0⟩ start_game (.play 4)).value start_game) ∧
    count_cells ((main_turn ⟨0, 0⟩ start_game (.play 4)).value start_game).grid PLAYER1_TOKEN
      = (1 + 1) / 2 ∧
    count_cells ((main_turn ⟨0, 0⟩ start_game (.play 4)).value start_game).grid PLAYER2_TOKEN
      = 1 / 2 ∧
    count_cells ((main_turn ⟨0, 0⟩ start_game (.play 4)).value start_game).grid ' ' + 1
      = 42 :=
  ⟨ReachableAfter.played 0 start_game _ ⟨0, 0⟩ (.play 4)
      (ReachableAfter.start start_game main_start_eq) rfl ⟨4, rfl, by decide⟩
      (Exec.eq_ret_value start_game _ (by decide)),
   (tokens_after_moves 1 _ (ReachableAfter.played 0 start_game _ ⟨0, 0⟩ (.play 4)
      (ReachableAfter.start start_game main_start_eq) rfl ⟨4, rfl, by decide⟩
      (Exec.eq_ret_value start_game _ (by decide)))).2.1,
   (tokens_after_moves 1 _ (ReachableAfter.played 0 start_game _ ⟨0, 0⟩ (.play 4)
      (ReachableAfter.start start_game main_start_eq) rfl ⟨4, rfl, by decide⟩
      (Exec.eq_ret_value start_game _ (by decide)))).2.2.1,
   (tokens_after_moves 1 _ (ReachableAfter.played 0 start_game _ ⟨0, 0⟩ (.play 4)
      (ReachableAfter.start start_game main_start_eq) rfl ⟨4, rfl, by decide⟩
      (Exec.eq_ret_value start_game _ (by decide)))).2.2.2.1⟩

/-! ## The scenarios of the specification -/

/-- The turn of `main` on a column is the drop of the active token, followed
by the choice between ending the loop and switching the token. -/
theorem main_turn_eq_drop (pos0 : position) (s : Game) (move : Int) :
    main_turn pos0 s (.play move)
      = (drop pos0 s.grid move s.token).bind fun res =>
          match res with
          | none => .ret s
          | some out => .ret (next_game s out.1 out.2.2) := by
  unfold main_turn drop
  simp only
  cases valid_move s.grid move with
  | ret valid =>
    simp only [Exec.bind_ret]
    by_cases hv : valid = 0
    · rw [if_pos hv, if_pos hv]
      rfl
    · rw [if_neg hv, if_neg hv]
      cases calculate_position s.grid (move - 1) pos0 with
      | ret pos =>
        simp only [Exec.bind_ret]
        cases s.grid.write pos.column pos.row s.token with
        | ret g1 =>
          simp only [Exec.bind_ret]
          cases game_status g1 pos s.token with
          | ret status =>
            simp only [Exec.bind_ret]
            unfold next_game
            by_cases hs : status ≠ STATUS_OK
            · rw [if_pos hs, if_pos hs]
            · rw [if_neg hs, if_neg hs]
          | out_of_bounds => rfl
          | out_of_fuel => rfl
        | out_of_bounds => rfl
        | out_of_fuel => rfl
      | out_of_bounds => rfl
      | out_of_fuel => rfl
  | out_of_bounds => rfl
  | out_of_fuel => rfl

/-- C11 (scenario A): from the grid `initialize_grid` produces, four drops of
'O' into the same column `c` of 1..7 are all accepted and land in rows 5, 4, 3
and 2 of column index `c - 1`; `game_status` returns `STATUS_OK` after each of
the first three and `STATUS_WIN` after the fourth. -/
theorem scenario_vertical (c : Int) (hc : 1 ≤ c ∧ c ≤ 7) :
    drop_log [(c, PLAYER1_TOKEN), (c, PLAYER1_TOKEN), (c, PLAYER1_TOKEN), (c, PLAYER1_TOKEN)]
      = .ret [some ({ column := c - 1, row := 5 }, STATUS_OK),
              some ({ column := c - 1, row := 4 }, STATUS_OK),
              some ({ column := c - 1, row := 3 }, STATUS_OK),
              some ({ column := c - 1, row := 2 }, STATUS_WIN)] := by
  obtain ⟨h1, h7⟩ := hc
  interval_cases c <;> decide

/-- Witness of C11: column 4, as in the specification. -/
theorem scenario_vertical_witness :
    ((1 : Int) ≤ 4 ∧ (4 : Int) ≤ 7) ∧
    drop_log [(4, PLAYER1_TOKEN), (4, PLAYER1_TOKEN), (4, PLAYER1_TOKEN), (4, PLAYER1_TOKEN)]
      = .ret [some ({ column := 4 - 1, row := 5 }, STATUS_OK),
              some ({ column := 4 - 1, row := 4 }, STATUS_OK),
              some ({ column := 4 - 1, row := 3 }, STATUS_OK),
              some ({ column := 4 - 1, row := 2 }, STATUS_WIN)] :=
  ⟨by decide, scenario_vertical 4 (by decide)⟩

set_option maxRecDepth 100000 in
theorem scenario_horizontal_all :
    ∀ c ∈ ([1, 2, 3, 4] : List Int),
    ∀ x1 ∈ [c, c + 1, c + 2, c + 3], ∀ x2 ∈ [c, c + 1, c + 2, c + 3],
    ∀ x3 ∈ [c, c + 1, c + 2, c + 3], ∀ x4 ∈ [c, c + 1, c + 2, c + 3],
      [x1, x2, x3, x4].Nodup →
      drop_log ([x1, x2, x3, x4].map fun m => (m, PLAYER1_TOKEN))
        = .ret (bottom_row_log [x1, x2, x3, x4]) := by
  decide

/-- C12 (scenario B): from the grid `initialize_grid` produces, for a start
column `c` of 1..4 and the four columns `c, c+1, c+2, c+3` played in any order,
one drop of 'O' into each lands in row 5 of its column; `game_status` returns
`STATUS_OK` after each of the first three drops and `STATUS_WIN` after the
fourth. -/
theorem scenario_horizontal (c : Int) (hc : 1 ≤ c ∧ c ≤ 4) (order : List Int)
    (hperm : order.Perm [c, c + 1, c + 2, c + 3]) :
    ∃ x1 x2 x3 x4 : Int, order = [x1, x2, x3, x4] ∧
      drop_log [(x1, PLAYER1_TOKEN), (x2, PLAYER1_TOKEN), (x3, PLAYER1_TOKEN),
          (x4, PLAYER1_TOKEN)]
        = .ret [some ({ column := x1 - 1, row := 5 }, STATUS_OK),
                some ({ column := x2 - 1, row := 5 }, STATUS_OK),
                some ({ column := x3 - 1, row := 5 }, STATUS_OK),
                some ({ column := x4 - 1, row := 5 }, STATUS_WIN)] := by
  have hlen := hperm.length_eq
  have hnodup : [c, c + 1, c + 2, c + 3].Nodup := by
    obtain ⟨h1, h4⟩ := hc
    interval_cases c <;> decide
  have hc4 : c ∈ ([1, 2, 3, 4] : List Int) := by
    obtain ⟨h1, h4⟩ := hc
    interval_cases c <;> decide
  rcases order with _ | ⟨x1, _ | ⟨x2, _ | ⟨x3, _ | ⟨x4, _ | ⟨x5, rest⟩⟩⟩⟩⟩
  · simp at hlen
  · simp at hlen
  · simp at hlen
  · simp at hlen
  · refine ⟨x1, x2, x3, x4, rfl, ?_⟩
    have hn := hperm.nodup_iff.mpr hnodup
    have m1 : x1 ∈ [c, c + 1, c + 2, c + 3] := hperm.subset (by simp)
    have m2 : x2 ∈ [c, c + 1, c + 2, c + 3] := hperm.subset (by simp)
    have m3 : x3 ∈ [c, c + 1, c + 2, c + 3] := hperm.subset (by simp)
    have m4 : x4 ∈ [c, c + 1, c + 2, c + 3] := hperm.subset (by simp)
    exact scenario_horizontal_all c hc4 x1 m1 x2 m2 x3 m3 x4 m4 hn
  · simp at hlen

/-- Witness of C12: the columns 1, 2, 3, 4 of the specification, played in
the order 3, 1, 4, 2. -/
theorem scenario_horizontal_witness :
    (((1 : Int) ≤ 1 ∧ (1 : Int) ≤ 4) ∧
      ([3, 1, 4, 2] : List Int).Perm [1, 1 + 1, 1 + 2, 1 + 3]) ∧
    ∃ x1 x2 x3 x4 : Int, ([3, 1, 4, 2] : List Int) = [x1, x2, x3, x4] ∧
      drop_log [(x1, PLAYER1_TOKEN), (x2, PLAYER1_TOKEN), (x3, PLAYER1_TOKEN),
          (x4, PLAYER1_TOKEN)]
        = .ret [some ({ column := x1 - 1, row := 5 }, STATUS_OK),
                some ({ column := x2 - 1, row := 5 }, STATUS_OK),
                some ({ column := x3 - 1, row := 5 }, STATUS_OK),
                some ({ column := x4 - 1, row := 5 }, STATUS_WIN)] :=
  ⟨⟨by decide, by decide⟩, scenario_horizontal 1 (by decide) [3, 1, 4, 2] (by decide)⟩

set_option maxRecDepth 100000 in
/-- C13 (scenario C): the 42 drops `draw_columns`, 'O' and 'X' in turn, from
the grid `initialize_grid` produces are all accepted; `game_status` returns
`STATUS_OK` after each of the first 41 and `STATUS_DRAW` after the 42nd; the
final grid has no empty cell and no four equal tokens in a line.  Played through
`main`, the same columns end the loop with `STATUS_DRAW` and a draw is
announced. -/
theorem scenario_draw :
    ∃ moves : List (Int × Char), moves.length = 42 ∧
      (∀ m ∈ moves, m.2 = PLAYER1_TOKEN ∨ m.2 = PLAYER2_TOKEN) ∧
      ∃ (g : Grid) (log : List (Option (position × Int))),
        ((initialize_grid grid_static).bind fun g0 => drops ⟨0, 0⟩ g0 moves) = .ret (g, log) ∧
        log.map (Option.map Prod.snd)
          = List.replicate 41 (some STATUS_OK) ++ [some STATUS_DRAW] ∧
        (∀ c r, g c r ≠ ' ') ∧
        ¬ has_four g PLAYER1_TOKEN ∧ ¬ has_four g PLAYER2_TOKEN ∧
        (∀ c r, (game_after (moves.map Prod.fst)).grid c r = g c r) ∧
        (game_after (moves.map Prod.fst)).phase = .ended STATUS_DRAW ∧
        main_result (game_after (moves.map Prod.fst)) = .draw :=
  ⟨alternating PLAYER1_TOKEN draw_columns, by decide, by decide, _, _,
   Exec.eq_ret_value (empty_grid, []) _ (by decide), by decide, by decide, by decide,
   by decide, by decide, by decide, by decide⟩

/-! ## The counting loop on machine integers -/

theorem add_int_eq (a b : Int) (h : is_int (a + b)) : add_int a b = a + b := by
  unfold is_int INT_MIN INT_MAX at h
  unfold add_int
  omega

theorem add_int_step (c r h v : Int) (hin : in_grid c r) (hh : is_int h) (hv : is_int v) :
    (add_int c h = c + h ∧ add_int r v = r + v) ∨
    (¬ in_grid (add_int c h) (add_int r v) ∧ ¬ in_grid (c + h) (r + v)) := by
  have h7 : P4_COLUMNS = 7 := rfl
  have h6 : P4_ROWS = 6 := rfl
  unfold is_int INT_MIN INT_MAX at hh hv
  unfold in_grid at hin ⊢
  unfold add_int
  omega

/-- From the same position, or from two positions outside the grid, the loop
on machine integers counts what the loop on exact integers counts. -/
theorem calculate_token_count_from_to_int_loop_count (g : Grid) (h v : Int) (token : Char)
    (hh : is_int h) (hv : is_int v) :
    ∀ (fuel : Nat) (tmp tmp1 : position) (count : Nat) (reads : List position),
      (tmp = tmp1 ∨ (valid_position tmp = 0 ∧ valid_position tmp1 = 0)) →
      ((calculate_token_count_from_to_int_loop g h v token fuel tmp count reads).bind
          fun out => .ret out.1)
        = calculate_token_count_from_to_loop g h v token fuel tmp1 count := by
  intro fuel
  induction fuel with
  | zero => intro tmp tmp1 count reads _; rfl
  | succ f ih =>
    intro tmp tmp1 count reads hrel
    unfold calculate_token_count_from_to_int_loop calculate_token_count_from_to_loop
    rcases hrel with rfl | ⟨h0, h1⟩
    · by_cases hvalid : valid_position tmp ≠ 0
      · rw [if_pos hvalid, if_pos hvalid]
        have hin := (valid_position_ne_zero tmp).mp hvalid
        obtain ⟨c, r, _, _, hread⟩ := Grid.read_in_grid g tmp.column tmp.row hin
        rw [hread, Exec.bind_ret, Exec.bind_ret]
        by_cases htok : g c r = token
        · rw [if_pos htok, if_pos htok]
          apply ih
          rcases add_int_step tmp.column tmp.row h v hin hh hv with ⟨e1, e2⟩ | ⟨n1, n2⟩
          · left
            rw [e1, e2]
          · right
            constructor
            · rcases valid_position_cases
                ⟨add_int tmp.column h, add_int tmp.row v⟩ with ⟨_, hc⟩ | ⟨hz, _⟩
              · exact absurd hc n1
              · exact hz
            · rcases valid_position_cases ⟨tmp.column + h, tmp.row + v⟩ with ⟨_, hc⟩ | ⟨hz, _⟩
              · exact absurd hc n2
              · exact hz
        · rw [if_neg htok, if_neg htok]
          rfl
      · rw [if_neg hvalid, if_neg hvalid]
        rfl
    · rw [if_neg (by rw [h0]; decide), if_neg (by rw [h1]; decide)]
      rfl

/-- More fuel does not change a result of the loop on machine integers. -/
theorem calculate_token_count_from_to_int_loop_fuel (g : Grid) (h v : Int) (token : Char) :
    ∀ (fuel : Nat) (tmp : position) (count : Nat) (reads : List position)
      (out : Nat × List position),
      calculate_token_count_from_to_int_loop g h v token fuel tmp count reads = .ret out →
      ∀ k, calculate_token_count_from_to_int_loop g h v token (fuel + k) tmp count reads
        = .ret out := by
  intro fuel
  induction fuel with
  | zero =>
    intro tmp count reads out hout
    simp [calculate_token_count_from_to_int_loop] at hout
  | succ f ih =>
    intro tmp count reads out hout k
    have e : f + 1 + k = (f + k) + 1 := by omega
    rw [e]
    unfold calculate_token_count_from_to_int_loop at hout ⊢
    by_cases hvalid : valid_position tmp ≠ 0
    · rw [if_pos hvalid] at hout ⊢
      obtain ⟨ch, hread, hrest⟩ := Exec.bind_eq_ret hout
      rw [hread, Exec.bind_ret]
      by_cases hc : ch = token
      · rw [if_pos hc] at hrest ⊢
        exact ih _ _ _ _ hrest k
      · rw [if_neg hc] at hrest ⊢
        exact hrest
    · rw [if_neg hvalid] at hout ⊢
      exact hout

/-- The positions the loop reads are accepted by `valid_position`, and there
is one of them for each token counted, and at most one more. -/
theorem calculate_token_count_from_to_int_loop_reads (g : Grid) (h v : Int) (token : Char) :
    ∀ (fuel : Nat) (tmp : position) (count : Nat) (reads : List position)
      (out : Nat × List position),
      count + fuel < UINT_MOD →
      calculate_token_count_from_to_int_loop g h v token fuel tmp count reads = .ret out →
      (∀ p ∈ reads, valid_position p = 1) →
      (∀ p ∈ out.2, valid_position p = 1) ∧
      out.1 + reads.length ≤ count + out.2.length ∧
      count + out.2.length ≤ out.1 + reads.length + 1 := by
  intro fuel
  induction fuel with
  | zero =>
    intro tmp count reads out _ hout
    simp [calculate_token_count_from_to_int_loop] at hout
  | succ f ih =>
    intro tmp count reads out hsmall hout hreads
    unfold calculate_token_count_from_to_int_loop at hout
    by_cases hvalid : valid_position tmp ≠ 0
    · rw [if_pos hvalid] at hout
      have hone : valid_position tmp = 1 :=
        (valid_position_eq_one tmp).mpr ((valid_position_ne_zero tmp).mp hvalid)
      have hreads1 : ∀ p ∈ reads ++ [tmp], valid_position p = 1 := by
        intro p hp
        rcases List.mem_append.mp hp with hp | hp
        · exact hreads p hp
        · rw [List.mem_singleton.mp hp]; exact hone
      obtain ⟨ch, _, hrest⟩ := Exec.bind_eq_ret hout
      by_cases hc : ch = token
      · rw [if_pos hc] at hrest
        have hmod : (count + 1) % UINT_MOD = count + 1 := Nat.mod_eq_of_lt (by omega)
        rw [hmod] at hrest
        have := ih _ _ _ _ (by omega) hrest hreads1
        simp only [List.length_append, List.length_singleton] at this
        exact ⟨this.1, by omega, by omega⟩
      · rw [if_neg hc] at hrest
        have e := Exec.ret.inj hrest
        subst e
        simp only [List.length_append, List.length_singleton]
        exact ⟨hreads1, by omega, by omega⟩
    · rw [if_neg hvalid] at hout
      have e := Exec.ret.inj hout
      subst e
      exact ⟨hreads, Nat.le_refl _, Nat.le_succ _⟩

/-- The function on machine integers returns, for every direction other
than `(0, 0)`. -/
theorem calculate_token_count_from_to_int_total (g : Grid) (pos : position) (h v : Int)
    (token : Char) (hh : is_int h) (hv : is_int v) (hd : h ≠ 0 ∨ v ≠ 0) :
    ∃ out : Nat × List position,
      calculate_token_count_from_to_int g pos h v token = .ret out ∧
      calculate_token_count_from_to_loop g h v token COUNT_FUEL
        { column := add_int pos.column h, row := add_int pos.row v } 1 = .ret out.1 := by
  obtain ⟨n, hn⟩ := calculate_token_count_from_to_loop_total g h v token (cells_ahead h v)
    (cells_ahead_step h v hd) COUNT_FUEL
    { column := add_int pos.column h, row := add_int pos.row v } 1 (cells_ahead_lt_fuel h v _)
  have hcount := calculate_token_count_from_to_int_loop_count g h v token hh hv COUNT_FUEL
    { column := add_int pos.column h, row := add_int pos.row v }
    { column := add_int pos.column h, row := add_int pos.row v } 1 [] (Or.inl rfl)
  rw [hn] at hcount
  obtain ⟨out, hout, hfst⟩ := Exec.bind_eq_ret hcount
  have e := Exec.ret.inj hfst
  refine ⟨out, hout, ?_⟩
  rw [hn, e]

/-- Where the first sums do not overflow, and at every valid position, the
function on machine integers counts what `calculate_token_count_from_to`
counts. -/
theorem calculate_token_count_from_to_int_count (g : Grid) (pos : position) (h v : Int)
    (token : Char) (hh : is_int h) (hv : is_int v)
    (hexact : (is_int (pos.column + h) ∧ is_int (pos.row + v)) ∨ valid_position pos = 1) :
    ((calculate_token_count_from_to_int g pos h v token).bind fun out => .ret out.1)
      = calculate_token_count_from_to g pos h v token := by
  unfold calculate_token_count_from_to_int calculate_token_count_from_to
  apply calculate_token_count_from_to_int_loop_count g h v token hh hv
  rcases hexact with ⟨e1, e2⟩ | hvalid
  · left
    rw [add_int_eq _ _ e1, add_int_eq _ _ e2]
  · rcases add_int_step pos.column pos.row h v ((valid_position_eq_one pos).mp hvalid) hh hv
      with ⟨e1, e2⟩ | ⟨n1, n2⟩
    · left
      rw [e1, e2]
    · right
      constructor
      · rcases valid_position_cases
          ⟨add_int pos.column h, add_int pos.row v⟩ with ⟨_, hc⟩ | ⟨hz, _⟩
        · exact absurd hc n1
        · exact hz
      · rcases valid_position_cases ⟨pos.column + h, pos.row + v⟩ with ⟨_, hc⟩ | ⟨hz, _⟩
        · exact absurd hc n2
        · exact hz

/-- On the grid `last_cell_board`, from the position `(INT_MIN, 5)` with the
step `(INT_MIN, 0)`, the first sum wraps to column 0: the function on machine
integers reads the cell (0,5), which holds 'O', and returns 2, whereas with the
exact sum the probe is outside the grid and the count is 1. -/
theorem calculate_token_count_from_to_int_wraps :
    calculate_token_count_from_to_int last_cell_board ⟨INT_MIN, 5⟩ INT_MIN 0 'O'
      = .ret (2, [⟨0, 5⟩]) ∧
    calculate_token_count_from_to last_cell_board ⟨INT_MIN, 5⟩ INT_MIN 0 'O' = .ret 1 := by
  decide

set_option linter.unusedVariables false in
/-- C16: for every position, valid or not, and every direction other than
`(0, 0)`, all of them `int` values, `calculate_token_count_from_to` with its
sums formed as the machine forms them returns a count, the same for every amount
of fuel from `COUNT_FUEL` on: it is neither out of fuel nor out of bounds.
Every position at which it reads the grid is accepted by `valid_position`, the
reads being one for each token counted and at most one more, and
`valid_position` returns 1 exactly when `0 <= column < 7` and `0 <= row < 6`,
and 0 otherwise.  Where the first sums do not overflow, and at every valid
position, the count is the one of the function with exact sums. -/
theorem calculate_token_count_from_to_safe (g : Grid) (pos : position) (h v : Int)
    (token : Char) (hpos : is_int pos.column ∧ is_int pos.row) (hh : is_int h)
    (hv : is_int v) (hd : ¬ (h = 0 ∧ v = 0)) :
    (∃ (n : Nat) (reads : List position),
      calculate_token_count_from_to_int g pos h v token = .ret (n, reads) ∧
      (∀ fuel : Nat, COUNT_FUEL ≤ fuel →
        calculate_token_count_from_to_int_loop g h v token fuel
          { column := add_int pos.column h, row := add_int pos.row v } 1 []
          = .ret (n, reads)) ∧
      (∀ p ∈ reads, valid_position p = 1 ∧ g.read p.column p.row ≠ .out_of_bounds) ∧
      reads.length ≤ n ∧ n ≤ reads.length + 1 ∧
      ((is_int (pos.column + h) ∧ is_int (pos.row + v)) ∨ valid_position pos = 1 →
        calculate_token_count_from_to g pos h v token = .ret n)) ∧
    calculate_token_count_from_to_int g pos h v token ≠ .out_of_bounds ∧
    calculate_token_count_from_to_int g pos h v token ≠ .out_of_fuel ∧
    (∀ p : position, valid_position p = 1 ↔
      (0 ≤ p.column ∧ p.column < 7 ∧ 0 ≤ p.row ∧ p.row < 6)) ∧
    (∀ p : position, valid_position p = 1 ∨ valid_position p = 0) := by
  have hd1 : h ≠ 0 ∨ v ≠ 0 := by
    by_contra hc
    push_neg at hc
    exact hd hc
  obtain ⟨out, hout, _⟩ := calculate_token_count_from_to_int_total g pos h v token hh hv hd1
  have hne1 : calculate_token_count_from_to_int g pos h v token ≠ .out_of_bounds := by
    rw [hout]; intro hc; cases hc
  have hne2 : calculate_token_count_from_to_int g pos h v token ≠ .out_of_fuel := by
    rw [hout]; intro hc; cases hc
  have hreads := calculate_token_count_from_to_int_loop_reads g h v token COUNT_FUEL
    { column := add_int pos.column h, row := add_int pos.row v } 1 [] out
    (by decide) hout (fun p hp => absurd hp (List.not_mem_nil p))
  simp only [List.length_nil, Nat.add_zero] at hreads
  refine ⟨⟨out.1, out.2, hout, ?_, ?_, by omega, by omega, ?_⟩, hne1, hne2, ?_, ?_⟩
  · intro fuel hfuel
    obtain ⟨k, rfl⟩ : ∃ k, fuel = COUNT_FUEL + k := ⟨fuel - COUNT_FUEL, by omega⟩
    exact calculate_token_count_from_to_int_loop_fuel g h v token COUNT_FUEL _ 1 [] out hout k
  · intro p hp
    have hvalid := hreads.1 p hp
    refine ⟨hvalid, ?_⟩
    obtain ⟨c, r, _, _, hread⟩ :=
      Grid.read_in_grid g p.column p.row ((valid_position_eq_one p).mp hvalid)
    rw [hread]
    intro hc
    cases hc
  · intro hexact
    have hcount := calculate_token_count_from_to_int_count g pos h v token hh hv hexact
    rw [hout] at hcount
    exact hcount.symm
  · intro p
    exact valid_position_eq_one p
  · intro p
    rcases valid_position_cases p with ⟨h1, _⟩ | ⟨h0, _⟩
    · left; exact h1
    · right; exact h0

/-- Witness of C16: on the grid `last_cell_board`, the count of 'O' from the
position `(INT_MIN, 5)` with the step `(INT_MIN, 0)`, whose first probe is the
cell (0,5). -/
theorem calculate_token_count_from_to_safe_witness :
    ((is_int (⟨INT_MIN, 5⟩ : position).column ∧ is_int (⟨INT_MIN, 5⟩ : position).row) ∧
      is_int INT_MIN ∧ is_int 0 ∧ ¬ (INT_MIN = 0 ∧ (0 : Int) = 0)) ∧
    ((∃ (n : Nat) (reads : List position),
      calculate_token_count_from_to_int last_cell_board ⟨INT_MIN, 5⟩ INT_MIN 0 'O'
        = .ret (n, reads) ∧
      (∀ fuel : Nat, COUNT_FUEL ≤ fuel →
        calculate_token_count_from_to_int_loop last_cell_board INT_MIN 0 'O' fuel
          { column := add_int (⟨INT_MIN, 5⟩ : position).column INT_MIN,
            row := add_int (⟨INT_MIN, 5⟩ : position).row 0 } 1 []
          = .ret (n, reads)) ∧
      (∀ p ∈ reads,
        valid_position p = 1 ∧ last_cell_board.read p.column p.row ≠ .out_of_bounds) ∧
      reads.length ≤ n ∧ n ≤ reads.length + 1 ∧
      ((is_int ((⟨INT_MIN, 5⟩ : position).column + INT_MIN) ∧
          is_int ((⟨INT_MIN, 5⟩ : position).row + 0)) ∨
          valid_position ⟨INT_MIN, 5⟩ = 1 →
        calculate_token_count_from_to last_cell_board ⟨INT_MIN, 5⟩ INT_MIN 0 'O' = .ret n)) ∧
    calculate_token_count_from_to_int last_cell_board ⟨INT_MIN, 5⟩ INT_MIN 0 'O'
      ≠ .out_of_bounds ∧
    calculate_token_count_from_to_int last_cell_board ⟨INT_MIN, 5⟩ INT_MIN 0 'O'
      ≠ .out_of_fuel ∧
    (∀ p : position, valid_position p = 1 ↔
      (0 ≤ p.column ∧ p.column < 7 ∧ 0 ≤ p.row ∧ p.row < 6)) ∧
    (∀ p : position, valid_position p = 1 ∨ valid_position p = 0)) :=
  ⟨⟨by decide, by decide, by decide, by decide⟩,
   calculate_token_count_from_to_safe last_cell_board ⟨INT_MIN, 5⟩ INT_MIN 0 'O'
     (by decide) (by decide) (by decide) (by decide)⟩

end Connect4
